import Mathlib

/-!
# sqlbuild: a verification development

Shallow embedding of

* `cmd/exec.go`: the script-execution loop of `execCmdRun`,
* `lib/sqlserver.go`: `ValidatePassword`, `SqlServer.Shutdown`,
  `SqlServer.OnUnexpectedShutdown`, `pingLoop`,

followed by the theorems about them.

Conventions.  A Go `error` is an `Option`: `none` is `nil`.  Everything the
program reaches outside the repository (the database connection, the file
system, the supervised OS process, the clock, the Go scheduler) is an explicit
parameter, and every call made on it is recorded in a trace.
-/

namespace Sqlbuild

/-! ## `cmd/exec.go` -/

/-- The two methods of `lib.SqlConn` the loop calls, over an arbitrary
connection state `σ`: each returns the Go `error` and the next state. -/
structure SqlConn (σ : Type) where
  Exec : σ → String → Option String × σ
  ResetSession : σ → Option String × σ

/-- What the loop does to the outside world, in program order.  `script` is the
0-based position of the script in the `scripts` slice (the iteration of the
outer loop that produced the event); `index` is `i+1` of the inner loop. -/
inductive Event where
  /-- `conn.ResetSession()` and what it returned -/
  | resetSession (script : Nat) (result : Option String)
  /-- `loadBatchesFromFile(filename)` -/
  | loadBatches (script : Nat) (filename : String)
  /-- `log.Printf("[%s]: %d batches", name, len(batches))` -/
  | logBatches (script : Nat) (name : String) (count : Nat)
  /-- `log.Printf("[%s]: %5d/%-5d %3d%%", name, i+1, len(batches), complete)` -/
  | logProgress (script : Nat) (name : String) (index count complete : Nat)
  /-- `conn.Exec(query)` and what it returned -/
  | exec (script : Nat) (index : Nat) (query : String) (result : Option String)
  /-- `log.Printf("[%s]: completed in %s", name, time.Since(start))`, the
  duration left out -/
  | logCompleted (script : Nat) (name : String)
  deriving DecidableEq, Repr

/-- How the loop ends: by falling through to
`log.Println("All scripts executed successfully!")`, or in one of its three
`log.Fatalf` calls, with the arguments of that call. -/
inductive Outcome where
  | success
  /-- `"Error resetting session between scripts: %s"` -/
  | resetFailed (err : String)
  /-- `"[%s]: Error loading batches: %s"` -/
  | loadFailed (name err : String)
  /-- `"... %s ... Error executing query in %#v, batch #%d/%d:\n%s"` with
  `query, filename, i+1, len(batches), err` -/
  | execFailed (query filename : String) (index count : Nat) (err : String)
  deriving DecidableEq, Repr

/-- Trace, outcome and final connection state of a run. -/
structure Run (σ : Type) where
  trace : List Event
  outcome : Outcome
  conn : σ

/-- Go `filepath.Base` for `/`-separated paths. -/
def filepathBase (path : String) : String :=
  if path = "" then "."
  else
    let stripped := path.toList.reverse.dropWhile (fun c => c = '/')
    let last := stripped.takeWhile (fun c => c ≠ '/')
    if last = [] then "/" else String.mk last.reverse

/-- Go `filepath.Ext`: the suffix of the final path element that starts at its
last dot, empty when there is none. -/
def filepathExt (path : String) : String :=
  let seg := path.toList.reverse.takeWhile (fun c => c ≠ '/')
  let tail := seg.takeWhile (fun c => c ≠ '.')
  if tail.length < seg.length then String.mk ('.' :: tail.reverse) else ""

/-- Source: `baseNoExt`. -/
def baseNoExt (filename : String) : String :=
  let base := filepathBase filename
  let ext := filepathExt base
  if ext.toList.isSuffixOf base.toList then
    String.mk (base.toList.take (base.toList.length - ext.toList.length))
  else base

/-- The inner loop `for i, query := range batches` of `execCmdRun`; `i` is the
index of the head of the remaining batches, `count` is `len(batches)`.
`complete` is `int(100 * float64(i) / float64(len(batches)))`, which is the
integer quotient for every slice length below `2^53 / 100`.  The second
component is the `log.Fatalf` the loop died in, if any. -/
def execBatches {σ : Type} (conn : SqlConn σ) (script : Nat) (filename name : String)
    (count : Nat) : Nat → List String → σ → List Event × Option Outcome × σ
  | _, [], s => ([], none, s)
  | i, query :: rest, s =>
    let progress := Event.logProgress script name (i + 1) count (100 * i / count)
    match conn.Exec s query with
    | (some err, s1) =>
      ([progress, Event.exec script (i + 1) query (some err)],
        some (Outcome.execFailed query filename (i + 1) count err), s1)
    | (none, s1) =>
      let r := execBatches conn script filename name count (i + 1) rest s1
      (progress :: Event.exec script (i + 1) query none :: r.1, r.2.1, r.2.2)

/-- The body of the outer loop after the reset: load the batches of
`filename`, log their number, run them, log completion. -/
def execScript {σ : Type} (conn : SqlConn σ) (load : String → Except String (List String))
    (script : Nat) (filename : String) (s : σ) : List Event × Option Outcome × σ :=
  let name := baseNoExt filename
  match load filename with
  | Except.error err =>
    ([Event.loadBatches script filename], some (Outcome.loadFailed name err), s)
  | Except.ok batches =>
    let r := execBatches conn script filename name batches.length 0 batches s
    match r.2.1 with
    | some fatal =>
      (Event.loadBatches script filename :: Event.logBatches script name batches.length :: r.1,
        some fatal, r.2.2)
    | none =>
      (Event.loadBatches script filename :: Event.logBatches script name batches.length ::
        (r.1 ++ [Event.logCompleted script name]), none, r.2.2)

/-- The loop `for _, filename := range scripts` of `execCmdRun` (lines 80-124),
entered with the loop variable `reset` and at iteration number `script`.
`load` stands for `loadBatchesFromFile` (file read and `mssqlbatch.Split`, both
outside the repository). -/
def execLoop {σ : Type} (conn : SqlConn σ) (load : String → Except String (List String)) :
    Bool → Nat → List String → σ → Run σ
  | _, _, [], s => ⟨[], Outcome.success, s⟩
  | false, script, filename :: rest, s =>
    let b := execScript conn load script filename s
    match b.2.1 with
    | some fatal => ⟨b.1, fatal, b.2.2⟩
    | none =>
      let r := execLoop conn load true (script + 1) rest b.2.2
      ⟨b.1 ++ r.trace, r.outcome, r.conn⟩
  | true, script, filename :: rest, s =>
    match conn.ResetSession s with
    | (some err, s1) => ⟨[Event.resetSession script (some err)], Outcome.resetFailed err, s1⟩
    | (none, s1) =>
      let b := execScript conn load script filename s1
      match b.2.1 with
      | some fatal => ⟨Event.resetSession script none :: b.1, fatal, b.2.2⟩
      | none =>
        let r := execLoop conn load true (script + 1) rest b.2.2
        ⟨Event.resetSession script none :: (b.1 ++ r.trace), r.outcome, r.conn⟩

/-- The loop as `execCmdRun` enters it: `var reset bool` is `false`. -/
def execCmdRunLoop {σ : Type} (conn : SqlConn σ) (load : String → Except String (List String))
    (scripts : List String) (s : σ) : Run σ :=
  execLoop conn load false 0 scripts s

/-- The script an event belongs to. -/
def Event.script : Event → Nat
  | Event.resetSession k _ => k
  | Event.loadBatches k _ => k
  | Event.logBatches k _ _ => k
  | Event.logProgress k _ _ _ _ => k
  | Event.exec k _ _ _ => k
  | Event.logCompleted k _ => k

/-- An `Exec` call of a trace: script, 1-based batch index, batch text. -/
def Event.execCall : Event → Option (Nat × Nat × String)
  | Event.exec k i q _ => some (k, i, q)
  | _ => none

/-- The `Exec` calls of a trace, in order. -/
def execCalls (tr : List Event) : List (Nat × Nat × String) :=
  tr.filterMap Event.execCall

/-- Whether an event is a `ResetSession` call. -/
def Event.isReset : Event → Bool
  | Event.resetSession _ _ => true
  | _ => false

/-- Number of `ResetSession` calls in a trace. -/
def resetCalls (tr : List Event) : Nat :=
  tr.countP Event.isReset

/-- Whether an event is a `loadBatchesFromFile` call. -/
def Event.isLoad : Event → Bool
  | Event.loadBatches _ _ => true
  | _ => false

/-- Number of scripts whose batches the run has begun to load. -/
def loadCalls (tr : List Event) : Nat :=
  tr.countP Event.isLoad

/-- Whether a run ended in the `log.Fatalf` of a failed `ResetSession`. -/
def Outcome.isResetFailed : Outcome → Bool
  | Outcome.resetFailed _ => true
  | _ => false

/-- The events of the inner loop when every `Exec` succeeds: for each batch, in
order, the progress line and the `Exec` call, both with the batch's 1-based
index in the whole slice. -/
def batchEvents (script : Nat) (name : String) (count : Nat) : Nat → List String → List Event
  | _, [] => []
  | i, q :: rest =>
    Event.logProgress script name (i + 1) count (100 * i / count) ::
      Event.exec script (i + 1) q none :: batchEvents script name count (i + 1) rest

/-- A connection for examples: `Exec` fails exactly on the batch text `bad`,
`ResetSession` succeeds, and the state counts the calls made. -/
def failOn (bad : String) : SqlConn Nat where
  Exec := fun n q => (if q = bad then some "exec error" else none, n + 1)
  ResetSession := fun n => (none, n + 1)

/-- A file system for examples: `A.sql` has three batches, `B.sql` two,
`C.sql` one with an empty batch in the middle of three. -/
def demoLoad : String → Except String (List String)
  | "sql/A.sql" => Except.ok ["A1", "A2", "A3"]
  | "sql/B.sql" => Except.ok ["B1", "B2"]
  | "sql/C.sql" => Except.ok ["C1", "", "C3"]
  | f => Except.error ("open " ++ f ++ ": no such file or directory")


/-! ## `lib/sqlserver.go` -/

/-- Go `len(s)` of a string: its length in bytes. -/
def len (s : String) : Nat := s.utf8ByteSize

/-- Source: `ValidatePassword`. -/
def ValidatePassword (pw : String) : Option String :=
  if len pw < 8 then some "Password too short"
  else if len pw > 128 then some "Password too long"
  else none

/-- Source: `SqlServerEnv`. -/
structure SqlServerEnv where
  SA_PASSWORD : String
  MSSQL_PID : String

/-- The OS process behind `s.cmd`, as far as `SqlServer` uses it.  Both
results may depend on how many times the process has been signalled. -/
structure Cmd where
  /-- `cmd.Process.Signal(syscall.SIGTERM)`, as a function of the number of
  earlier `Signal` calls: the error returned, `none` when the signal is
  delivered -/
  Signal : Nat → Option String
  /-- `cmd.Wait()`, as a function of the number of `Signal` calls made: `none`
  when the process never exits (the call never returns), else the exit error
  it returns -/
  Wait : Nat → Option (Option String)

/-- Source: `SqlServer`.  `exited` is whether the channel `s.exited` is closed;
`output` is the text captured so far; `signalCalls` counts the calls of
`s.cmd.Process.Signal(syscall.SIGTERM)` made so far, i.e. the SIGTERM sent. -/
structure SqlServer where
  cmd : Cmd
  env : SqlServerEnv
  exited : Bool
  err : Option String
  output : String
  shutdownCalled : Nat
  signalCalls : Nat

/-- Source: `doneIsClosed`, a non-blocking receive on a channel that is only
ever closed: whether it is closed. -/
def doneIsClosed (done : Bool) : Bool :=
  match done with
  | true => true
  | false => false

/-- Source: `SqlServer.hasExited`. -/
def SqlServer.hasExited (s : SqlServer) : Bool := doneIsClosed s.exited

/-- Source: `SqlServer.waitroutine`, run to its end: `s.err = s.cmd.Wait()`, then
`close(s.exited)`.  `none` when `cmd.Wait()` never returns. -/
def SqlServer.waitroutine (s : SqlServer) : Option SqlServer :=
  match s.cmd.Wait s.signalCalls with
  | none => none
  | some e => some { s with err := e, exited := true }

/-- Source: `SqlServer.wait`: `<-s.exited; return s.err`.  On a channel that is
not yet closed the receive blocks until `waitroutine` has closed it; the first
component is `none` when that never happens. -/
def SqlServer.wait (s : SqlServer) : Option (Option String) × SqlServer :=
  if s.exited then (some s.err, s)
  else
    match s.waitroutine with
    | some s1 => (some s1.err, s1)
    | none => (none, s)

/-- Source: `SqlServer.Shutdown`, after its `hasExited` test has failed: store
the flag, send SIGTERM, and wait. -/
def SqlServer.signalAndWait (s : SqlServer) : Option (Option String) × SqlServer :=
  let s1 := { s with shutdownCalled := 1 }
  let s2 := { s1 with signalCalls := s1.signalCalls + 1 }
  match s1.cmd.Signal s1.signalCalls with
  | some e => (some (some ("Sending SIGTERM to sqlservr failed unexpectedly: " ++ e)), s2)
  | none => s2.wait

/-- Source: `SqlServer.Shutdown`.  The first component is the returned error
(`some none` is a `nil` error), or `none` when the call never returns. -/
def SqlServer.Shutdown (s : SqlServer) : Option (Option String) × SqlServer :=
  if s.hasExited then (some s.err, s) else s.signalAndWait

/-- Source: `errOrNil`. -/
def errOrNil (err : Option String) : String :=
  match err with
  | none => "<nil>"
  | some e => e

/-- Where the main flow stands with respect to `Shutdown`. -/
inductive MainPC where
  /-- outside `Shutdown` -/
  | idle
  /-- inside `Shutdown`, after `s.hasExited()` has returned false -/
  | tested
  /-- inside `Shutdown`, after `atomic.StoreUint32(&s.shutdownCalled, 1)` -/
  | stored
  /-- inside `Shutdown`, after `Signal` has returned `nil`, in `s.wait()` -/
  | signalled
  deriving DecidableEq, Repr

/-- The program around one `SqlServer`: the main flow, which calls
`OnUnexpectedShutdown` and `Shutdown`, the goroutine `waitroutine`, and the
goroutines spawned by `OnUnexpectedShutdown`, named by the order of their
registration.  `waiting` holds the spawned goroutines that are blocked in
`s.wait()`, `woken` those that have returned from `s.wait()` and have not yet
loaded the flag; `calls` lists the callback invocations made so far, each with
the registration it belongs to and the `errOrNil(err)` of its argument. -/
structure System where
  srv : SqlServer
  main : MainPC
  waiting : List Nat
  woken : List Nat
  spawned : Nat
  calls : List (Nat × String)
  panicked : Bool

/-- The steps of the program, one for each statement that reads or writes
what the goroutines share.  They are taken in any order; a step that cannot be
taken where it is tried changes nothing. -/
inductive Action where
  /-- the main flow, outside `Shutdown`, calls
  `s.OnUnexpectedShutdown(callback)`; `isNil` is `callback == nil` -/
  | OnUnexpectedShutdown (isNil : Bool)
  /-- the main flow calls `s.Shutdown()` and runs
  `if s.hasExited() { return s.err }` -/
  | ShutdownTest
  /-- `atomic.StoreUint32(&s.shutdownCalled, 1)` of `Shutdown` -/
  | ShutdownStore
  /-- `s.cmd.Process.Signal(syscall.SIGTERM)` of `Shutdown`, and its `return`
  when the signal is not delivered -/
  | ShutdownSignal
  /-- `return s.wait()` of `Shutdown`, which can be taken once `s.exited` is
  closed -/
  | ShutdownWait
  /-- the process exits and `waitroutine` runs to its end -/
  | processExit
  /-- `err := s.wait()` in the goroutine of registration `id`, which can be
  taken once `s.exited` is closed -/
  | wake (id : Nat)
  /-- `atomic.LoadUint32(&s.shutdownCalled)` in the goroutine of registration
  `id`, and the call of the callback unless the flag is 1 -/
  | load (id : Nat)
  deriving DecidableEq, Repr

/-- One step.  A `nil` callback panics and ends the program. -/
def System.step (y : System) (a : Action) : System :=
  if y.panicked then y
  else
    match a with
    | Action.OnUnexpectedShutdown isNil =>
      if y.main = MainPC.idle then
        if isNil then { y with panicked := true }
        else { y with waiting := y.waiting ++ [y.spawned], spawned := y.spawned + 1 }
      else y
    | Action.ShutdownTest =>
      if y.main = MainPC.idle then
        if y.srv.hasExited then y else { y with main := MainPC.tested }
      else y
    | Action.ShutdownStore =>
      if y.main = MainPC.tested then
        { y with srv := { y.srv with shutdownCalled := 1 }, main := MainPC.stored }
      else y
    | Action.ShutdownSignal =>
      if y.main = MainPC.stored then
        match y.srv.cmd.Signal y.srv.signalCalls with
        | some _ =>
          { y with srv := { y.srv with signalCalls := y.srv.signalCalls + 1 },
                   main := MainPC.idle }
        | none =>
          { y with srv := { y.srv with signalCalls := y.srv.signalCalls + 1 },
                   main := MainPC.signalled }
      else y
    | Action.ShutdownWait =>
      if y.main = MainPC.signalled ∧ y.srv.exited = true then { y with main := MainPC.idle }
      else y
    | Action.processExit =>
      if y.srv.exited then y
      else
        match y.srv.waitroutine with
        | some s1 => { y with srv := s1 }
        | none => y
    | Action.wake id =>
      if id ∈ y.waiting ∧ y.srv.exited = true then
        { y with waiting := y.waiting.erase id, woken := y.woken ++ [id] }
      else y
    | Action.load id =>
      if id ∈ y.woken then
        let expected := y.srv.shutdownCalled == 1
        if !expected then
          { y with woken := y.woken.erase id, calls := y.calls ++ [(id, errOrNil y.srv.err)] }
        else { y with woken := y.woken.erase id }
      else y

/-- The state after a sequence of steps. -/
def System.run (y : System) (as : List Action) : System := as.foldl System.step y

/-- The program right after `StartSqlServer` has returned `s`. -/
def System.init (s : SqlServer) : System :=
  { srv := s, main := MainPC.idle, waiting := [], woken := [], spawned := 0, calls := [],
    panicked := false }

/-- Whether registration `id` has been made and its goroutine has run to its
end. -/
def System.finished (y : System) (id : Nat) : Prop :=
  id < y.spawned ∧ id ∉ y.waiting ∧ id ∉ y.woken

/-- How often the callback of registration `id` has been invoked. -/
def System.invocations (y : System) (id : Nat) : Nat := (y.calls.map Prod.fst).count id

/-- What holds of the program in every state it reaches. -/
structure System.Inv (y : System) : Prop where
  waiting_lt : ∀ id ∈ y.waiting, id < y.spawned
  woken_lt : ∀ id ∈ y.woken, id < y.spawned
  waiting_nodup : y.waiting.Nodup
  woken_nodup : y.woken.Nodup
  disjoint : ∀ id ∈ y.waiting, id ∉ y.woken
  calls_finished : ∀ id ∈ y.calls.map Prod.fst, id < y.spawned ∧ id ∉ y.waiting ∧ id ∉ y.woken
  calls_nodup : (y.calls.map Prod.fst).Nodup
  calls_exited : y.calls ≠ [] → y.srv.exited = true
  woken_exited : y.woken ≠ [] → y.srv.exited = true
  finished_called : y.srv.shutdownCalled ≠ 1 →
    ∀ id, id < y.spawned → id ∉ y.waiting → id ∉ y.woken → id ∈ y.calls.map Prod.fst

/-- Go `time.Second`, a `Duration` in nanoseconds. -/
def second : Int := 1000000000

/-- The errors `pingLoop` returns: `ErrCanceled` (`context.Canceled`) and the
`*PingError` of a failed `sqlcmdPing`, which is never equal to it. -/
inductive PollError where
  | ErrCanceled
  | PingError (text : String)
  deriving DecidableEq, Repr

/-- The case a `select` of `pingLoop` takes. -/
inductive Sel where
  /-- `case <-poll.C` -/
  | tick
  /-- `case <-done` -/
  | done
  deriving DecidableEq, Repr

/-- What `pingLoop` meets outside itself.  Times are nanoseconds. -/
structure PingWorld where
  /-- `time.Now()` at entry -/
  start : Int
  /-- result of attempt `n`, the `n`-th call of `ping()` counting from 0:
  `none` is `nil` -/
  ping : Nat → Option String
  /-- whether a tick can be received from `poll.C` when the `n`-th execution of
  the `select` (counting from 0) proceeds -/
  tickReady : Nat → Bool
  /-- whether `done` is closed when the `n`-th execution of the `select`
  proceeds -/
  doneClosed : Nat → Bool
  /-- the case the `n`-th execution of the `select` takes when both can proceed
  (Go chooses one at random) -/
  pick : Nat → Sel
  /-- `time.Now()` as read after attempt `n` has failed -/
  now : Nat → Int

/-- Go `select { case <-poll.C: ...; case <-done: ... }`, at its `n`-th
execution: it blocks until a case can proceed and takes it, either one when
both can; `none` when neither ever can. -/
def PingWorld.select (w : PingWorld) (n : Nat) : Option Sel :=
  match w.tickReady n, w.doneClosed n with
  | true, false => some Sel.tick
  | false, true => some Sel.done
  | true, true => some (w.pick n)
  | false, false => none

/-- What `pingLoop` does, in program order. -/
inductive PingEvent where
  /-- attempt `n` and its result -/
  | ping (n : Nat) (result : Option String)
  /-- a receive from `poll.C` -/
  | tick
  /-- a receive from `done` -/
  | done
  deriving DecidableEq, Repr

/-- Result of `pingLoop`: the returned error and what was done. -/
structure PingRun where
  err : Option PollError
  trace : List PingEvent
  deriving DecidableEq, Repr

/-- The `for { select { ... } }` of `pingLoop` after `n` executions of the
`select` (attempts `0..n` made), for at most `fuel` more; `none` when the loop
is still running after them or blocks for ever. -/
def pingLoop.loop (w : PingWorld) (deadline : Int) : Nat → Nat → Option PingRun
  | 0, _ => none
  | fuel + 1, n =>
    match w.select n with
    | none => none
    | some Sel.done => some ⟨some PollError.ErrCanceled, [PingEvent.done]⟩
    | some Sel.tick =>
      match w.ping (n + 1) with
      | none => some ⟨none, [PingEvent.tick, PingEvent.ping (n + 1) none]⟩
      | some e =>
        if deadline < w.now (n + 1) then
          some ⟨some (PollError.PingError e), [PingEvent.tick, PingEvent.ping (n + 1) (some e)]⟩
        else
          match pingLoop.loop w deadline fuel (n + 1) with
          | none => none
          | some r => some ⟨r.err, PingEvent.tick :: PingEvent.ping (n + 1) (some e) :: r.trace⟩

/-- Source: `pingLoop`, with `fuel` bounding the executions of the `select`.
`deadline := time.Now().Add(timeout)`; `time.Now().After(deadline)` is
`deadline < now`. -/
def pingLoop (w : PingWorld) (timeout : Int) (fuel : Nat) : Option PingRun :=
  let deadline := w.start + timeout
  match w.ping 0 with
  | none => some ⟨none, [PingEvent.ping 0 none]⟩
  | some e =>
    match pingLoop.loop w deadline fuel 0 with
    | none => none
    | some r => some ⟨r.err, PingEvent.ping 0 (some e) :: r.trace⟩

/-- Whether an event is a health-check attempt. -/
def PingEvent.isPing : PingEvent → Bool
  | PingEvent.ping _ _ => true
  | _ => false

/-- Number of health-check attempts in a trace. -/
def attempts (tr : List PingEvent) : Nat := tr.countP PingEvent.isPing

/-- Number of ticks received in a trace. -/
def ticks (tr : List PingEvent) : Nat := tr.count PingEvent.tick

/-- The events of `c` iterations of the loop of `pingLoop` that all take the
tick, starting with the iteration after `n` executions of the `select`. -/
def failedIterations (w : PingWorld) : Nat → Nat → List PingEvent
  | _, 0 => []
  | n, c + 1 =>
    PingEvent.tick :: PingEvent.ping (n + 1) (w.ping (n + 1)) :: failedIterations w (n + 1) c

/-- A process for examples: SIGTERM is delivered, and the process exits with
`exit status 1` when left alone and cleanly once signalled. -/
def demoCmd : Cmd where
  Signal := fun _ => none
  Wait := fun n => if n = 0 then some (some "exit status 1") else some none

/-- A running server for examples. -/
def demoServer : SqlServer :=
  { cmd := demoCmd, env := ⟨"!SQLBUILD2018", ""⟩, exited := false, err := none,
    output := "", shutdownCalled := 0, signalCalls := 0 }

/-- A health check for examples that fails on its first `k` attempts and
succeeds from then on, with no cancellation, the `n`-th loop attempt ending
0.1 s after `n` seconds. -/
def failsThenSucceeds (k : Nat) : PingWorld where
  start := 0
  ping := fun n => if n < k then some "Sqlcmd: Error: Login timeout expired" else none
  tickReady := fun _ => true
  doneClosed := fun _ => false
  pick := fun _ => Sel.tick
  now := fun n => n * second + 100000000

/-- A health check for examples that always fails, cancelled before the first
tick when `cancelled`. -/
def alwaysFails (cancelled : Bool) : PingWorld where
  start := 0
  ping := fun n => some ("attempt " ++ toString n ++ " failed")
  tickReady := fun _ => !cancelled
  doneClosed := fun _ => cancelled
  pick := fun _ => Sel.tick
  now := fun n => n * second + 100000000

/-! # Part II: lemmas -/

/-! ### Lemmas on lists -/

theorem append_eq_mid {α : Type} {l1 l2 pre post : List α} {e : α}
    (h : l1 ++ l2 = pre ++ e :: post) :
    (∃ m, l1 = pre ++ e :: m ∧ post = m ++ l2) ∨ (∃ m, pre = l1 ++ m ∧ l2 = m ++ e :: post) := by
  induction l1 generalizing pre with
  | nil => exact Or.inr ⟨pre, by simp, by simpa using h⟩
  | cons x l1 ih =>
    cases pre with
    | nil =>
      simp only [List.cons_append, List.nil_append, List.cons.injEq] at h
      exact Or.inl ⟨l1, by simp [h.1], h.2.symm⟩
    | cons y pre =>
      simp only [List.cons_append, List.cons.injEq] at h
      rcases ih h.2 with ⟨m, h1, h2⟩ | ⟨m, h1, h2⟩
      · exact Or.inl ⟨m, by simp [h.1, h1], h2⟩
      · exact Or.inr ⟨m, by simp [h.1, h1], h2⟩

theorem getLast_cons_append_pair {α : Type} (l : List α) (a x y : α) :
    (a :: (l ++ [x, y])).getLast? = some y := by
  have : a :: (l ++ [x, y]) = (a :: l ++ [x]) ++ [y] := by simp
  rw [this, List.getLast?_append]
  simp

/-! ### The inner loop -/

theorem execBatches_event {σ : Type} (conn : SqlConn σ) (k : Nat) (f n : String) (c : Nat)
    (i : Nat) (bs : List String) (s : σ) :
    ∀ e ∈ (execBatches conn k f n c i bs s).1, e.script = k ∧ e.isReset = false := by
  induction bs generalizing i s with
  | nil => intro e he; simp [execBatches] at he
  | cons q rest ih =>
    intro e he
    rcases hx : conn.Exec s q with ⟨_ | err, s1⟩
    · simp only [execBatches, hx, List.mem_cons] at he
      rcases he with rfl | rfl | he
      · exact ⟨rfl, rfl⟩
      · exact ⟨rfl, rfl⟩
      · exact ih _ _ e he
    · simp only [execBatches, hx, List.mem_cons, List.mem_singleton] at he
      rcases he with rfl | rfl | he
      · exact ⟨rfl, rfl⟩
      · exact ⟨rfl, rfl⟩
      · simp at he

theorem execBatches_ok {σ : Type} (conn : SqlConn σ) (k : Nat) (f n : String) (c : Nat)
    (i : Nat) (bs : List String) (s : σ)
    (h : (execBatches conn k f n c i bs s).2.1 = none) :
    (execBatches conn k f n c i bs s).1 = batchEvents k n c i bs := by
  induction bs generalizing i s with
  | nil => rfl
  | cons q rest ih =>
    rcases hx : conn.Exec s q with ⟨_ | err, s1⟩
    · simp only [execBatches, hx] at h ⊢
      simp only [batchEvents]
      rw [ih _ _ h]
    · simp [execBatches, hx] at h

theorem execBatches_fatal {σ : Type} (conn : SqlConn σ) (k : Nat) (f n : String) (c : Nat)
    (i : Nat) (bs : List String) (s : σ) (o : Outcome)
    (h : (execBatches conn k f n c i bs s).2.1 = some o) :
    ∃ pre j q err, (execBatches conn k f n c i bs s).1 = pre ++ [Event.exec k j q (some err)] ∧
      o = Outcome.execFailed q f j c err := by
  induction bs generalizing i s with
  | nil => simp [execBatches] at h
  | cons q0 rest ih =>
    rcases hx : conn.Exec s q0 with ⟨_ | err0, s1⟩
    · simp only [execBatches, hx] at h ⊢
      obtain ⟨pre, j, q, err, h1, h2⟩ := ih (i + 1) s1 h
      exact ⟨_ :: _ :: pre, j, q, err, by rw [h1]; rfl, h2⟩
    · simp only [execBatches, hx, Option.some.injEq] at h ⊢
      exact ⟨[_], i + 1, q0, err0, rfl, h.symm⟩

/-! ### One script -/

theorem execScript_ok {σ : Type} (conn : SqlConn σ) (load : String → Except String (List String))
    (k : Nat) (f : String) (s : σ) (h : (execScript conn load k f s).2.1 = none) :
    ∃ bs, load f = Except.ok bs ∧
      (execScript conn load k f s).1 =
        Event.loadBatches k f :: Event.logBatches k (baseNoExt f) bs.length ::
          (batchEvents k (baseNoExt f) bs.length 0 bs ++ [Event.logCompleted k (baseNoExt f)]) := by
  rcases hl : load f with err | bs
  · simp [execScript, hl] at h
  · rcases hb : (execBatches conn k f (baseNoExt f) bs.length 0 bs s).2.1 with _ | fatal
    · refine ⟨bs, rfl, ?_⟩
      simp only [execScript, hl, hb]
      rw [execBatches_ok conn k f (baseNoExt f) bs.length 0 bs s hb]
    · simp [execScript, hl, hb] at h

theorem execScript_event {σ : Type} (conn : SqlConn σ)
    (load : String → Except String (List String)) (k : Nat) (f : String) (s : σ) :
    ∀ e ∈ (execScript conn load k f s).1, e.script = k ∧ e.isReset = false := by
  intro e he
  rcases hl : load f with err | bs
  · simp only [execScript, hl, List.mem_singleton] at he
    subst he
    exact ⟨rfl, rfl⟩
  · have hb := execBatches_event conn k f (baseNoExt f) bs.length 0 bs s
    rcases hx : (execBatches conn k f (baseNoExt f) bs.length 0 bs s).2.1 with _ | fatal
    · simp only [execScript, hl, hx, List.mem_cons, List.mem_append, List.mem_singleton,
        List.not_mem_nil, or_false] at he
      rcases he with rfl | rfl | he | rfl
      · exact ⟨rfl, rfl⟩
      · exact ⟨rfl, rfl⟩
      · exact hb e he
      · exact ⟨rfl, rfl⟩
    · simp only [execScript, hl, hx, List.mem_cons] at he
      rcases he with rfl | rfl | he
      · exact ⟨rfl, rfl⟩
      · exact ⟨rfl, rfl⟩
      · exact hb e he

theorem execScript_head {σ : Type} (conn : SqlConn σ)
    (load : String → Except String (List String)) (k : Nat) (f : String) (s : σ) :
    ∃ tl, (execScript conn load k f s).1 = Event.loadBatches k f :: tl := by
  rcases hl : load f with err | bs
  · exact ⟨[], by simp [execScript, hl]⟩
  · rcases hx : (execBatches conn k f (baseNoExt f) bs.length 0 bs s).2.1 with _ | fatal
    · exact ⟨_, by simp only [execScript, hl, hx]; rfl⟩
    · exact ⟨_, by simp only [execScript, hl, hx]; rfl⟩

/-- One iteration of the outer loop, by cases: the reset fails; or the reset
(if any) succeeds, leaving the events `hd`, and the script dies or completes. -/
theorem execLoop_cons {σ : Type} (conn : SqlConn σ) (load : String → Except String (List String))
    (reset : Bool) (k : Nat) (f : String) (rest : List String) (s : σ) :
    (∃ err, reset = true ∧
        (execLoop conn load reset k (f :: rest) s).trace = [Event.resetSession k (some err)] ∧
        (execLoop conn load reset k (f :: rest) s).outcome = Outcome.resetFailed err) ∨
    (∃ hd s1, ((hd = [] ∧ reset = false) ∨ (hd = [Event.resetSession k none] ∧ reset = true)) ∧
      ((∃ fatal, (execScript conn load k f s1).2.1 = some fatal ∧
          (execLoop conn load reset k (f :: rest) s).trace = hd ++ (execScript conn load k f s1).1 ∧
          (execLoop conn load reset k (f :: rest) s).outcome = fatal) ∨
       ((execScript conn load k f s1).2.1 = none ∧
          (execLoop conn load reset k (f :: rest) s).trace =
            hd ++ ((execScript conn load k f s1).1 ++
              (execLoop conn load true (k + 1) rest (execScript conn load k f s1).2.2).trace) ∧
          (execLoop conn load reset k (f :: rest) s).outcome =
            (execLoop conn load true (k + 1) rest (execScript conn load k f s1).2.2).outcome))) := by
  cases reset with
  | false =>
    right
    refine ⟨[], s, Or.inl ⟨rfl, rfl⟩, ?_⟩
    rcases hb : (execScript conn load k f s).2.1 with _ | fatal
    · right
      simp [execLoop, hb]
    · left
      exact ⟨fatal, rfl, by simp [execLoop, hb], by simp [execLoop, hb]⟩
  | true =>
    rcases hr : conn.ResetSession s with ⟨_ | err, s1⟩
    · right
      refine ⟨[Event.resetSession k none], s1, Or.inr ⟨rfl, rfl⟩, ?_⟩
      rcases hb : (execScript conn load k f s1).2.1 with _ | fatal
      · right
        simp [execLoop, hr, hb]
      · left
        exact ⟨fatal, rfl, by simp [execLoop, hr, hb], by simp [execLoop, hr, hb]⟩
    · left
      exact ⟨err, rfl, by simp [execLoop, hr], by simp [execLoop, hr]⟩

theorem resetCalls_append (a b : List Event) : resetCalls (a ++ b) = resetCalls a + resetCalls b := by
  simp [resetCalls]

theorem resetCalls_of_not_reset (l : List Event) (h : ∀ e ∈ l, e.isReset = false) :
    resetCalls l = 0 := by
  simp only [resetCalls, List.countP_eq_zero]
  intro e he
  simp [h e he]

theorem execScript_resetCalls {σ : Type} (conn : SqlConn σ)
    (load : String → Except String (List String)) (k : Nat) (f : String) (s : σ) :
    resetCalls (execScript conn load k f s).1 = 0 :=
  resetCalls_of_not_reset _ (fun e he => (execScript_event conn load k f s e he).2)

/-- In a run entered with `reset` at iteration `k`: the number of resets before
an event determines the script the event belongs to. -/
theorem execLoop_resets_before {σ : Type} (conn : SqlConn σ)
    (load : String → Except String (List String))
    (reset : Bool) (k : Nat) (scripts : List String) (s : σ)
    (pre post : List Event) (e : Event)
    (h : (execLoop conn load reset k scripts s).trace = pre ++ e :: post) :
    resetCalls pre + k + (if e.isReset then 1 else 0) = e.script + (if reset then 1 else 0) := by
  induction scripts generalizing reset k s pre with
  | nil => simp [execLoop] at h
  | cons f rest ih =>
    have body : ∀ (hd : List Event) (s1 : σ) (m m1 : List Event),
        ((hd = [] ∧ reset = false) ∨ (hd = [Event.resetSession k none] ∧ reset = true)) →
        pre = hd ++ m → (execScript conn load k f s1).1 = m ++ e :: m1 →
        resetCalls pre + k + (if e.isReset then 1 else 0) =
          e.script + (if reset then 1 else 0) := by
      intro hd s1 m m1 hhd hpre hm
      have hev := execScript_event conn load k f s1
      have he := hev e (by rw [hm]; simp)
      have hm0 : resetCalls m = 0 :=
        resetCalls_of_not_reset m (fun x hx => (hev x (by rw [hm]; simp [hx])).2)
      rw [hpre, resetCalls_append, hm0, he.1, he.2]
      rcases hhd with ⟨rfl, rfl⟩ | ⟨rfl, rfl⟩
      · simp [resetCalls]
      · simp [resetCalls, Event.isReset]; omega
    have head : ∀ (hd m : List Event),
        ((hd = [] ∧ reset = false) ∨ (hd = [Event.resetSession k none] ∧ reset = true)) →
        hd = pre ++ e :: m →
        resetCalls pre + k + (if e.isReset then 1 else 0) =
          e.script + (if reset then 1 else 0) := by
      intro hd m hhd hm
      rcases hhd with ⟨rfl, rfl⟩ | ⟨rfl, rfl⟩
      · simp at hm
      · cases pre with
        | nil =>
          simp only [List.nil_append, List.cons.injEq] at hm
          rw [← hm.1]
          simp [resetCalls, Event.isReset, Event.script]
        | cons x pre => simp at hm
    rcases execLoop_cons conn load reset k f rest s with
      ⟨e0, hr, ht, -⟩ | ⟨hd, s1, hhd, ⟨fatal, hb, ht, -⟩ | ⟨hb, ht, -⟩⟩
    · rw [ht] at h
      subst hr
      cases pre with
      | nil =>
        simp only [List.nil_append, List.cons.injEq] at h
        rw [← h.1]
        simp [resetCalls, Event.isReset, Event.script]
      | cons x pre => simp at h
    · rw [ht] at h
      rcases append_eq_mid h with ⟨m, h1, -⟩ | ⟨m, h1, h2⟩
      · exact head hd m hhd h1
      · exact body hd s1 m post hhd h1 h2
    · rw [ht] at h
      rcases append_eq_mid h with ⟨m, h1, -⟩ | ⟨m, h1, h2⟩
      · exact head hd m hhd h1
      · rcases append_eq_mid h2 with ⟨m1, h3, -⟩ | ⟨m1, h3, h4⟩
        · exact body hd s1 m m1 hhd h1 h3
        · have := ih true (k + 1) _ m1 h4
          rw [h1, h3, resetCalls_append, resetCalls_append, execScript_resetCalls]
          rcases hhd with ⟨rfl, rfl⟩ | ⟨rfl, rfl⟩
          · simp only [resetCalls, List.countP_nil] at this ⊢
            simp only [if_true] at this
            simp only [Bool.false_eq_true, if_false]
            omega
          · simp only [resetCalls, List.countP_cons, List.countP_nil, Event.isReset] at this ⊢
            simp only [if_true] at this ⊢
            omega

/-- In a run entered with `reset` at iteration `k`, `n` scripts are started:
the scripts of the events are `k, ..., k+n-1`, and each started script
but the first of a run entered with `reset = false` has its reset. -/
theorem execLoop_started {σ : Type} (conn : SqlConn σ)
    (load : String → Except String (List String))
    (reset : Bool) (k : Nat) (scripts : List String) (s : σ) :
    ∃ n, n ≤ scripts.length ∧ (scripts ≠ [] → 1 ≤ n) ∧
      resetCalls (execLoop conn load reset k scripts s).trace = (if reset then n else n - 1) ∧
      ∀ i, (k ≤ i ∧ i < k + n) ↔ ∃ e ∈ (execLoop conn load reset k scripts s).trace, e.script = i := by
  induction scripts generalizing reset k s with
  | nil =>
    refine ⟨0, le_refl _, by simp, by simp [execLoop, resetCalls], ?_⟩
    intro i
    simp only [execLoop, List.not_mem_nil, false_and, exists_false, iff_false]
    omega
  | cons f rest ih =>
    rcases execLoop_cons conn load reset k f rest s with
      ⟨e0, hr, ht, -⟩ | ⟨hd, s1, hhd, ⟨fatal, hb, ht, -⟩ | ⟨hb, ht, -⟩⟩
    · subst hr
      refine ⟨1, by simp, by simp, by rw [ht]; simp [resetCalls, Event.isReset], ?_⟩
      intro i
      rw [ht]
      simp only [List.mem_singleton, exists_eq_left, Event.script]
      omega
    · obtain ⟨tl, htl⟩ := execScript_head conn load k f s1
      have hev := execScript_event conn load k f s1
      refine ⟨1, by simp, by simp, ?_, ?_⟩
      · rw [ht, resetCalls_append, execScript_resetCalls]
        rcases hhd with ⟨rfl, rfl⟩ | ⟨rfl, rfl⟩ <;> simp [resetCalls, Event.isReset]
      · intro i
        rw [ht]
        constructor
        · intro hi
          refine ⟨Event.loadBatches k f, ?_, ?_⟩
          · rw [htl]; simp
          · simp only [Event.script]; omega
        · rintro ⟨e, he, rfl⟩
          rw [List.mem_append] at he
          rcases he with he | he
          · rcases hhd with ⟨rfl, -⟩ | ⟨rfl, -⟩
            · simp at he
            · simp only [List.mem_singleton] at he
              subst he
              simp only [Event.script]; omega
          · rw [(hev e he).1]; omega
    · obtain ⟨tl, htl⟩ := execScript_head conn load k f s1
      have hev := execScript_event conn load k f s1
      obtain ⟨n, hn1, -, hn3, hn4⟩ := ih true (k + 1) (execScript conn load k f s1).2.2
      refine ⟨n + 1, by simpa using hn1, by simp, ?_, ?_⟩
      · rw [ht, resetCalls_append, resetCalls_append, execScript_resetCalls, hn3]
        rcases hhd with ⟨rfl, rfl⟩ | ⟨rfl, rfl⟩
        · simp [resetCalls]
        · simp [resetCalls, Event.isReset]; omega
      · intro i
        rw [ht]
        constructor
        · intro hi
          by_cases hik : i = k
          · refine ⟨Event.loadBatches k f, ?_, ?_⟩
            · rw [htl]; simp
            · simp only [Event.script]; omega
          · obtain ⟨e, he, hei⟩ := (hn4 i).mp ⟨by omega, by omega⟩
            exact ⟨e, by simp [he], hei⟩
        · rintro ⟨e, he, rfl⟩
          rw [List.mem_append, List.mem_append] at he
          rcases he with he | he | he
          · rcases hhd with ⟨rfl, -⟩ | ⟨rfl, -⟩
            · simp at he
            · simp only [List.mem_singleton] at he
              subst he
              simp only [Event.script]; omega
          · rw [(hev e he).1]; omega
          · have := (hn4 e.script).mpr ⟨e, he, rfl⟩
            omega

theorem loadCalls_append (a b : List Event) : loadCalls (a ++ b) = loadCalls a + loadCalls b := by
  simp [loadCalls]

theorem execBatches_loadCalls {σ : Type} (conn : SqlConn σ) (k : Nat) (f n : String) (c : Nat)
    (i : Nat) (bs : List String) (s : σ) :
    loadCalls (execBatches conn k f n c i bs s).1 = 0 := by
  induction bs generalizing i s with
  | nil => rfl
  | cons q rest ih =>
    rcases hx : conn.Exec s q with ⟨_ | err, s1⟩
    · have := ih (i + 1) s1
      simp only [loadCalls] at this
      simp [execBatches, hx, loadCalls, Event.isLoad, this]
    · simp [execBatches, hx, loadCalls, Event.isLoad]

theorem execScript_loadCalls {σ : Type} (conn : SqlConn σ)
    (load : String → Except String (List String)) (k : Nat) (f : String) (s : σ) :
    loadCalls (execScript conn load k f s).1 = 1 := by
  rcases hl : load f with e0 | bs
  · simp [execScript, hl, loadCalls, Event.isLoad]
  · have hb := execBatches_loadCalls conn k f (baseNoExt f) bs.length 0 bs s
    simp only [loadCalls] at hb
    rcases hx : (execBatches conn k f (baseNoExt f) bs.length 0 bs s).2.1 with _ | fatal
    · simp [execScript, hl, hx, loadCalls, Event.isLoad, hb]
    · simp [execScript, hl, hx, loadCalls, Event.isLoad, hb]

theorem execScript_not_resetFailed {σ : Type} (conn : SqlConn σ)
    (load : String → Except String (List String)) (k : Nat) (f : String) (s : σ)
    (fatal : Outcome) (h : (execScript conn load k f s).2.1 = some fatal) :
    fatal.isResetFailed = false := by
  rcases hl : load f with e0 | bs
  · simp only [execScript, hl, Option.some.injEq] at h
    subst h
    rfl
  · rcases hx : (execBatches conn k f (baseNoExt f) bs.length 0 bs s).2.1 with _ | fatal1
    · simp [execScript, hl, hx] at h
    · obtain ⟨_, _, _, _, -, h2⟩ :=
        execBatches_fatal conn k f (baseNoExt f) bs.length 0 bs s fatal1 hx
      simp only [execScript, hl, hx, Option.some.injEq] at h
      subst h
      subst h2
      rfl

/-- In a run over at least one script, every started script has its reset (but
the first of a run entered with `reset = false`) and its load (but the last,
when its reset fails). -/
theorem execLoop_resets_loads {σ : Type} (conn : SqlConn σ)
    (load : String → Except String (List String))
    (reset : Bool) (k : Nat) (f : String) (rest : List String) (s : σ) :
    resetCalls (execLoop conn load reset k (f :: rest) s).trace + (if reset then 0 else 1) =
      loadCalls (execLoop conn load reset k (f :: rest) s).trace +
        (if (execLoop conn load reset k (f :: rest) s).outcome.isResetFailed then 1 else 0) := by
  induction rest generalizing reset k f s with
  | nil =>
    rcases execLoop_cons conn load reset k f [] s with
      ⟨e0, hr, ht, ho⟩ | ⟨hd, s1, hhd, ⟨fatal, hb, ht, ho⟩ | ⟨hb, ht, ho⟩⟩
    · subst hr
      rw [ht, ho]
      simp [resetCalls, loadCalls, Event.isReset, Event.isLoad, Outcome.isResetFailed]
    · rw [ht, ho, resetCalls_append, loadCalls_append, execScript_resetCalls, execScript_loadCalls,
        execScript_not_resetFailed conn load k f s1 fatal hb]
      rcases hhd with ⟨rfl, rfl⟩ | ⟨rfl, rfl⟩ <;>
        simp [resetCalls, loadCalls, Event.isReset, Event.isLoad]
    · rw [ht, ho, resetCalls_append, resetCalls_append, loadCalls_append, loadCalls_append,
        execScript_resetCalls, execScript_loadCalls]
      rcases hhd with ⟨rfl, rfl⟩ | ⟨rfl, rfl⟩ <;>
        simp [execLoop, resetCalls, loadCalls, Event.isReset, Event.isLoad, Outcome.isResetFailed]
  | cons g rest ih =>
    rcases execLoop_cons conn load reset k f (g :: rest) s with
      ⟨e0, hr, ht, ho⟩ | ⟨hd, s1, hhd, ⟨fatal, hb, ht, ho⟩ | ⟨hb, ht, ho⟩⟩
    · subst hr
      rw [ht, ho]
      simp [resetCalls, loadCalls, Event.isReset, Event.isLoad, Outcome.isResetFailed]
    · rw [ht, ho, resetCalls_append, loadCalls_append, execScript_resetCalls, execScript_loadCalls,
        execScript_not_resetFailed conn load k f s1 fatal hb]
      rcases hhd with ⟨rfl, rfl⟩ | ⟨rfl, rfl⟩ <;>
        simp [resetCalls, loadCalls, Event.isReset, Event.isLoad]
    · have h1 := ih true (k + 1) g (execScript conn load k f s1).2.2
      simp only [if_true, Nat.add_zero] at h1
      rw [ht, ho, resetCalls_append, resetCalls_append, loadCalls_append, loadCalls_append,
        execScript_resetCalls, execScript_loadCalls, h1]
      rcases hhd with ⟨rfl, rfl⟩ | ⟨rfl, rfl⟩
      · simp [resetCalls, loadCalls]
        omega
      · simp [resetCalls, loadCalls, Event.isReset, Event.isLoad]
        omega

/-! ### Completed scripts -/

theorem execBatches_not_completed {σ : Type} (conn : SqlConn σ) (k : Nat) (f n : String)
    (c : Nat) (i : Nat) (bs : List String) (s : σ) (k1 : Nat) (n1 : String) :
    Event.logCompleted k1 n1 ∉ (execBatches conn k f n c i bs s).1 := by
  induction bs generalizing i s with
  | nil => simp [execBatches]
  | cons q rest ih =>
    rcases hx : conn.Exec s q with ⟨_ | err, s1⟩
    · simp only [execBatches, hx, List.mem_cons, not_or]
      exact ⟨by simp, by simp, ih _ _⟩
    · simp [execBatches, hx]

theorem execScript_completed {σ : Type} (conn : SqlConn σ)
    (load : String → Except String (List String)) (k : Nat) (f : String) (s : σ)
    (k1 : Nat) (n1 : String) (h : Event.logCompleted k1 n1 ∈ (execScript conn load k f s).1) :
    (execScript conn load k f s).2.1 = none ∧ k1 = k ∧ n1 = baseNoExt f := by
  rcases hl : load f with e0 | bs
  · simp [execScript, hl] at h
  · rcases hx : (execBatches conn k f (baseNoExt f) bs.length 0 bs s).2.1 with _ | fatal
    · have hn := execBatches_not_completed conn k f (baseNoExt f) bs.length 0 bs s k1 n1
      simp only [execScript, hl, hx, List.mem_cons, List.mem_append, List.mem_singleton,
        List.not_mem_nil, or_false] at h ⊢
      rcases h with h | h | h | h
      · cases h
      · cases h
      · exact absurd h hn
      · simp only [Event.logCompleted.injEq] at h
        exact ⟨trivial, h.1, h.2⟩
    · have hn := execBatches_not_completed conn k f (baseNoExt f) bs.length 0 bs s k1 n1
      simp only [execScript, hl, hx, List.mem_cons] at h
      rcases h with h | h | h
      · cases h
      · cases h
      · exact absurd h hn

theorem execLoop_completed {σ : Type} (conn : SqlConn σ)
    (load : String → Except String (List String))
    (reset : Bool) (k : Nat) (scripts : List String) (s : σ) (k1 : Nat) (n : String)
    (h : Event.logCompleted k1 n ∈ (execLoop conn load reset k scripts s).trace) :
    k ≤ k1 ∧ ∃ f bs pre post, scripts.get? (k1 - k) = some f ∧ load f = Except.ok bs ∧
      n = baseNoExt f ∧
      (execLoop conn load reset k scripts s).trace =
        pre ++ (Event.loadBatches k1 f :: Event.logBatches k1 n bs.length ::
          (batchEvents k1 n bs.length 0 bs ++ [Event.logCompleted k1 n])) ++ post := by
  induction scripts generalizing reset k s with
  | nil => simp [execLoop] at h
  | cons f rest ih =>
    have hhead : ∀ hd : List Event,
        ((hd = [] ∧ reset = false) ∨ (hd = [Event.resetSession k none] ∧ reset = true)) →
        Event.logCompleted k1 n ∉ hd := by
      intro hd hhd
      rcases hhd with ⟨rfl, -⟩ | ⟨rfl, -⟩ <;> simp
    rcases execLoop_cons conn load reset k f rest s with
      ⟨e0, -, ht, -⟩ | ⟨hd, s1, hhd, ⟨fatal, hb, ht, -⟩ | ⟨hb, ht, -⟩⟩
    · rw [ht] at h
      simp at h
    · rw [ht, List.mem_append] at h
      rcases h with h | h
      · exact absurd h (hhead hd hhd)
      · have := (execScript_completed conn load k f s1 k1 n h).1
        rw [hb] at this
        cases this
    · rw [ht, List.mem_append, List.mem_append] at h
      rcases h with h | h | h
      · exact absurd h (hhead hd hhd)
      · obtain ⟨-, hk, hn⟩ := execScript_completed conn load k f s1 k1 n h
        subst hk
        subst hn
        obtain ⟨bs, hl, hs⟩ := execScript_ok conn load k1 f s1 hb
        refine ⟨le_refl _, f, bs, hd,
          (execLoop conn load true (k1 + 1) rest (execScript conn load k1 f s1).2.2).trace,
          by simp, hl, rfl, ?_⟩
        rw [ht, hs]
        simp
      · obtain ⟨h1, f1, bs, pre, post, h2, h3, h4, h5⟩ := ih true (k + 1) _ h
        refine ⟨by omega, f1, bs, hd ++ ((execScript conn load k f s1).1 ++ pre), post, ?_, h3, h4, ?_⟩
        · have : k1 - k = (k1 - (k + 1)) + 1 := by omega
          rw [this]
          simpa using h2
        · rw [ht, h5]
          simp

theorem mem_batchEvents (k : Nat) (n : String) (c i0 : Nat) (bs : List String) (i : Nat)
    (q : String) (h : bs.get? i = some q) :
    Event.logProgress k n (i0 + i + 1) c (100 * (i0 + i) / c) ∈ batchEvents k n c i0 bs ∧
    Event.exec k (i0 + i + 1) q none ∈ batchEvents k n c i0 bs := by
  induction bs generalizing i0 i with
  | nil => simp at h
  | cons q0 rest ih =>
    cases i with
    | zero =>
      simp only [List.get?_cons_zero, Option.some.injEq] at h
      subst h
      simp [batchEvents]
    | succ i =>
      simp only [List.get?_cons_succ] at h
      have := ih (i0 + 1) i h
      have e1 : i0 + 1 + i = i0 + (i + 1) := by omega
      rw [e1] at this
      simp only [batchEvents, List.mem_cons]
      exact ⟨Or.inr (Or.inr this.1), Or.inr (Or.inr this.2)⟩

/-! ### `SqlServer` -/

theorem Shutdown_of_exited (s : SqlServer) (h : s.exited = true) :
    s.Shutdown = (some s.err, s) := by
  simp [SqlServer.Shutdown, SqlServer.hasExited, doneIsClosed, h]

theorem Shutdown_of_running (s : SqlServer) (h : s.exited = false) :
    s.Shutdown = s.signalAndWait := by
  simp [SqlServer.Shutdown, SqlServer.hasExited, doneIsClosed, h]

theorem signalAndWait_flag (s : SqlServer) : s.signalAndWait.2.shutdownCalled = 1 := by
  unfold SqlServer.signalAndWait
  simp only
  rcases hs : s.cmd.Signal s.signalCalls with _ | e
  · simp only [SqlServer.wait]
    by_cases hx : s.exited = true
    · simp [hx]
    · simp only [hx, Bool.false_eq_true, if_false, SqlServer.waitroutine]
      rcases hw : s.cmd.Wait (s.signalCalls + 1) with _ | r <;> simp
  · simp

theorem signalAndWait_delivered (s : SqlServer) (e : Option String) (h : s.exited = false)
    (hs : s.cmd.Signal s.signalCalls = none) (hw : s.cmd.Wait (s.signalCalls + 1) = some e) :
    s.signalAndWait =
      (some e, { s with shutdownCalled := 1, signalCalls := s.signalCalls + 1, err := e,
                        exited := true }) := by
  simp [SqlServer.signalAndWait, hs, SqlServer.wait, h, SqlServer.waitroutine, hw]

/-! ### `pingLoop` -/

theorem attempts_failedIterations (w : PingWorld) (n c : Nat) :
    attempts (failedIterations w n c) = c := by
  induction c generalizing n with
  | zero => rfl
  | succ c ih =>
    have := ih (n + 1)
    simp only [attempts] at this
    simp [failedIterations, attempts, PingEvent.isPing, this]

theorem ticks_failedIterations (w : PingWorld) (n c : Nat) :
    ticks (failedIterations w n c) = c := by
  induction c generalizing n with
  | zero => rfl
  | succ c ih =>
    have := ih (n + 1)
    simp only [ticks] at this
    simp [failedIterations, ticks, this]

theorem loop_skip (w : PingWorld) (d : Int) (c n fuel : Nat)
    (h : ∀ j, n ≤ j → j < n + c →
      w.select j = some Sel.tick ∧ (∃ e, w.ping (j + 1) = some e) ∧ ¬ d < w.now (j + 1)) :
    pingLoop.loop w d (fuel + c) n =
      (pingLoop.loop w d fuel (n + c)).map
        (fun r => ⟨r.err, failedIterations w n c ++ r.trace⟩) := by
  induction c generalizing n with
  | zero =>
    cases hx : pingLoop.loop w d fuel n <;> simp [hx, failedIterations]
  | succ c ih =>
    obtain ⟨h1, ⟨e, h2⟩, h3⟩ := h n (le_refl _) (by omega)
    have ih1 := ih (n + 1) (fun j hj1 hj2 => h j (by omega) (by omega))
    have e1 : fuel + (c + 1) = (fuel + c) + 1 := by omega
    have e2 : n + 1 + c = n + (c + 1) := by omega
    rw [e1, pingLoop.loop, h1]
    simp only [h2, h3, if_false]
    rw [ih1, e2]
    cases hx : pingLoop.loop w d fuel (n + (c + 1)) <;> simp [failedIterations, h2]

theorem loop_mono (w : PingWorld) (d : Int) (fuel n t : Nat) (r : PingRun)
    (h : pingLoop.loop w d fuel n = some r) : pingLoop.loop w d (fuel + t) n = some r := by
  induction fuel generalizing n r with
  | zero => simp [pingLoop.loop] at h
  | succ fuel ih =>
    have e1 : fuel + 1 + t = (fuel + t) + 1 := by omega
    rw [e1]
    rw [pingLoop.loop] at h ⊢
    rcases hs : w.select n with _ | _ | _
    · simp [hs] at h
    · simp only [hs] at h ⊢
      cases hp : w.ping (n + 1) with
      | none => simpa [hp] using h
      | some e =>
        simp only [hp] at h ⊢
        by_cases hd : d < w.now (n + 1)
        · simpa [hd] using h
        · simp only [hd, if_false] at h ⊢
          cases hx : pingLoop.loop w d fuel (n + 1) with
          | none => simp [hx] at h
          | some r1 =>
            rw [ih (n + 1) r1 hx]
            simpa [hx] using h
    · simpa [hs] using h

theorem pingLoop_mono (w : PingWorld) (timeout : Int) (fuel t : Nat) (r : PingRun)
    (h : pingLoop w timeout fuel = some r) : pingLoop w timeout (fuel + t) = some r := by
  unfold pingLoop at h ⊢
  cases hp : w.ping 0 with
  | none => simpa [hp] using h
  | some e =>
    simp only [hp] at h ⊢
    cases hx : pingLoop.loop w (w.start + timeout) fuel 0 with
    | none => simp [hx] at h
    | some r1 =>
      rw [loop_mono w _ fuel 0 t r1 hx]
      simpa [hx] using h

/-- A run is the same for every amount of fuel that lets it end. -/
theorem pingLoop_unique (w : PingWorld) (timeout : Int) (f1 f2 : Nat) (r1 r2 : PingRun)
    (h1 : pingLoop w timeout f1 = some r1) (h2 : pingLoop w timeout f2 = some r2) : r1 = r2 := by
  have a := pingLoop_mono w timeout f1 f2 r1 h1
  have b := pingLoop_mono w timeout f2 f1 r2 h2
  rw [Nat.add_comm] at b
  rw [a] at b
  exact Option.some.inj b

theorem pingLoop_skip (w : PingWorld) (timeout : Int) (m fuel : Nat) (e0 : String)
    (h0 : w.ping 0 = some e0)
    (h : ∀ j, j < m → w.select j = some Sel.tick ∧ (∃ e, w.ping (j + 1) = some e) ∧
      ¬ w.start + timeout < w.now (j + 1)) :
    pingLoop w timeout (fuel + m) =
      (pingLoop.loop w (w.start + timeout) fuel m).map
        (fun r => ⟨r.err, PingEvent.ping 0 (some e0) :: (failedIterations w 0 m ++ r.trace)⟩) := by
  have hs := loop_skip w (w.start + timeout) m 0 fuel (fun j _ hj => h j (by omega))
  simp only [Nat.zero_add] at hs
  unfold pingLoop
  simp only [h0]
  rw [hs]
  cases hx : pingLoop.loop w (w.start + timeout) fuel m <;> simp

theorem loop_cancelled (w : PingWorld) (d : Int) (fuel n : Nat) (r : PingRun)
    (h : pingLoop.loop w d fuel n = some r) (hr : r.err = some PollError.ErrCanceled) :
    ∃ pre, r.trace = pre ++ [PingEvent.done] ∧ PingEvent.done ∉ pre := by
  induction fuel generalizing n r with
  | zero => simp [pingLoop.loop] at h
  | succ fuel ih =>
    rw [pingLoop.loop] at h
    rcases hs : w.select n with _ | _ | _
    · simp [hs] at h
    · simp only [hs] at h
      cases hp : w.ping (n + 1) with
      | none =>
        simp only [hp, Option.some.injEq] at h
        subst h
        simp at hr
      | some e =>
        simp only [hp] at h
        by_cases hd : d < w.now (n + 1)
        · simp only [hd, if_true, Option.some.injEq] at h
          subst h
          simp at hr
        · simp only [hd, if_false] at h
          cases hx : pingLoop.loop w d fuel (n + 1) with
          | none => simp [hx] at h
          | some r1 =>
            simp only [hx, Option.some.injEq] at h
            subst h
            obtain ⟨pre, h1, h2⟩ := ih (n + 1) r1 hx hr
            refine ⟨PingEvent.tick :: PingEvent.ping (n + 1) (some e) :: pre, ?_, ?_⟩
            · simp [h1]
            · simp [h2]
    · simp only [hs, Option.some.injEq] at h
      subst h
      exact ⟨[], rfl, by simp⟩

theorem select_tick (w : PingWorld) (n : Nat) (h1 : w.tickReady n = true)
    (h2 : w.doneClosed n = false) : w.select n = some Sel.tick := by
  simp [PingWorld.select, h1, h2]

theorem select_done (w : PingWorld) (n : Nat) (h1 : w.tickReady n = false)
    (h2 : w.doneClosed n = true) : w.select n = some Sel.done := by
  simp [PingWorld.select, h1, h2]

theorem loop_all_fail (w : PingWorld) (d : Int) (hfail : ∀ n, ∃ e, w.ping n = some e)
    (hsel : ∀ n, w.select n = some Sel.tick) (fuel n : Nat) (r : PingRun)
    (h : pingLoop.loop w d fuel n = some r) :
    ∃ c e, w.ping (n + c + 1) = some e ∧
      r = ⟨some (PollError.PingError e),
        failedIterations w n c ++ [PingEvent.tick, PingEvent.ping (n + c + 1) (some e)]⟩ ∧
      d < w.now (n + c + 1) ∧ ∀ j, n < j → j < n + c + 1 → w.now j ≤ d := by
  induction fuel generalizing n r with
  | zero => simp [pingLoop.loop] at h
  | succ fuel ih =>
    obtain ⟨e1, he1⟩ := hfail (n + 1)
    rw [pingLoop.loop] at h
    simp only [hsel n, he1] at h
    by_cases hd : d < w.now (n + 1)
    · simp only [hd, if_true, Option.some.injEq] at h
      subst h
      exact ⟨0, e1, he1, rfl, hd, fun j h1 h2 => by omega⟩
    · simp only [hd, if_false] at h
      cases hx : pingLoop.loop w d fuel (n + 1) with
      | none => simp [hx] at h
      | some r1 =>
        simp only [hx, Option.some.injEq] at h
        subst h
        obtain ⟨c, e, h1, h2, h3, h4⟩ := ih (n + 1) r1 hx
        have e2 : n + 1 + c + 1 = n + (c + 1) + 1 := by omega
        rw [e2] at h1 h2 h3 h4
        refine ⟨c + 1, e, h1, ?_, h3, ?_⟩
        · rw [h2]
          simp [failedIterations, he1]
        · intro j hj1 hj2
          by_cases hj : j = n + 1
          · subst hj
            omega
          · exact h4 j (by omega) hj2

theorem pingLoop_all_fail_returns (w : PingWorld) (timeout : Int)
    (hfail : ∀ n, ∃ e, w.ping n = some e) (hsel : ∀ n, w.select n = some Sel.tick)
    (hclock : ∀ n : Nat, w.start + n * second ≤ w.now n) :
    ∃ k e tr, 1 ≤ k ∧ k ≤ (timeout / second).toNat + 1 ∧
      (∀ fuel, k ≤ fuel → pingLoop w timeout fuel = some ⟨some (PollError.PingError e), tr⟩) ∧
      (∀ fuel r, pingLoop w timeout fuel = some r → r = ⟨some (PollError.PingError e), tr⟩) ∧
      attempts tr = k + 1 ∧ tr.getLast? = some (PingEvent.ping k (some e)) ∧
      w.ping k = some e ∧ w.start + timeout < w.now k ∧
      (∀ j, 1 ≤ j → j < k → w.now j ≤ w.start + timeout) := by
  have hsec : (0 : Int) < second := by decide
  have hex : ∃ j : Nat, 1 ≤ j ∧ w.start + timeout < w.now j := by
    refine ⟨(timeout / second).toNat + 1, by omega, ?_⟩
    have h1 := hclock ((timeout / second).toNat + 1)
    have h2 : timeout < (timeout / second + 1) * second := Int.lt_ediv_add_one_mul_self timeout hsec
    have h3 : timeout / second ≤ ((timeout / second).toNat : Int) := Int.self_le_toNat _
    have h4 : (timeout / second + 1) * second ≤
        ((((timeout / second).toNat + 1 : Nat) : Int)) * second := by
      apply mul_le_mul_of_nonneg_right _ (le_of_lt hsec)
      push_cast
      omega
    omega
  obtain ⟨hk1, hk2⟩ := Nat.find_spec hex
  have hmin : ∀ j, 1 ≤ j → j < Nat.find hex → w.now j ≤ w.start + timeout := by
    intro j hj1 hj2
    have := Nat.find_min hex hj2
    simp only [not_and, not_lt] at this
    exact this hj1
  have hle : Nat.find hex ≤ (timeout / second).toNat + 1 := by
    apply Nat.find_min' hex
    refine ⟨by omega, ?_⟩
    have h1 := hclock ((timeout / second).toNat + 1)
    have h2 : timeout < (timeout / second + 1) * second := Int.lt_ediv_add_one_mul_self timeout hsec
    have h3 : timeout / second ≤ ((timeout / second).toNat : Int) := Int.self_le_toNat _
    have h4 : (timeout / second + 1) * second ≤
        ((((timeout / second).toNat + 1 : Nat) : Int)) * second := by
      apply mul_le_mul_of_nonneg_right _ (le_of_lt hsec)
      push_cast
      omega
    omega
  obtain ⟨m, hm⟩ : ∃ m, Nat.find hex = m + 1 := ⟨Nat.find hex - 1, by omega⟩
  rw [hm] at hk2 hmin hle
  obtain ⟨e0, h0⟩ := hfail 0
  obtain ⟨e, he⟩ := hfail (m + 1)
  have run : ∀ fuel, m + 1 ≤ fuel → pingLoop w timeout fuel =
      some ⟨some (PollError.PingError e), PingEvent.ping 0 (some e0) ::
        (failedIterations w 0 m ++ [PingEvent.tick, PingEvent.ping (m + 1) (some e)])⟩ := by
    intro fuel hfuel
    obtain ⟨f, rfl⟩ : ∃ f, fuel = (f + 1) + m := ⟨fuel - (m + 1), by omega⟩
    rw [pingLoop_skip w timeout m (f + 1) e0 h0]
    · simp [pingLoop.loop, hsel m, he, hk2]
    · intro j hj
      refine ⟨hsel j, hfail (j + 1), ?_⟩
      have := hmin (j + 1) (by omega) (by omega)
      omega
  refine ⟨m + 1, e, _, by omega, hle, run, ?_, ?_, ?_, he, hk2, hmin⟩
  · intro fuel r hr
    exact pingLoop_unique w timeout fuel (m + 1) r _ hr (run (m + 1) (le_refl _))
  · have := attempts_failedIterations w 0 m
    simp only [attempts] at this
    simp [attempts, PingEvent.isPing, this]
  · exact getLast_cons_append_pair _ _ _ _

/-! ### The program around a `SqlServer` -/

theorem waitroutine_some (s s1 : SqlServer) (h : s.waitroutine = some s1) :
    s1.exited = true ∧ s1.shutdownCalled = s.shutdownCalled := by
  unfold SqlServer.waitroutine at h
  cases hw : s.cmd.Wait s.signalCalls with
  | none => simp [hw] at h
  | some e =>
    simp only [hw, Option.some.injEq] at h
    subst h
    exact ⟨rfl, rfl⟩

theorem step_panicked (y : System) (a : Action) (h : y.panicked = true) : y.step a = y := by
  simp [System.step, h]

theorem step_register (y : System) (h : y.panicked = false) (hm : y.main = MainPC.idle) :
    y.step (Action.OnUnexpectedShutdown false) =
      { y with waiting := y.waiting ++ [y.spawned], spawned := y.spawned + 1 } := by
  simp [System.step, h, hm]

theorem step_store (y : System) (h : y.panicked = false) (hm : y.main = MainPC.tested) :
    y.step Action.ShutdownStore =
      { y with srv := { y.srv with shutdownCalled := 1 }, main := MainPC.stored } := by
  simp [System.step, h, hm]

theorem step_wake (y : System) (id : Nat) (h : y.panicked = false) (hw : id ∈ y.waiting)
    (hx : y.srv.exited = true) :
    y.step (Action.wake id) =
      { y with waiting := y.waiting.erase id, woken := y.woken ++ [id] } := by
  simp [System.step, h, hw, hx]

theorem step_load (y : System) (id : Nat) (h : y.panicked = false) (hw : id ∈ y.woken) :
    (y.srv.shutdownCalled ≠ 1 ∧ y.step (Action.load id) =
      { y with woken := y.woken.erase id, calls := y.calls ++ [(id, errOrNil y.srv.err)] }) ∨
    (y.srv.shutdownCalled = 1 ∧ y.step (Action.load id) = { y with woken := y.woken.erase id }) := by
  by_cases hf : y.srv.shutdownCalled = 1
  · right
    exact ⟨hf, by simp [System.step, h, hw, hf]⟩
  · left
    exact ⟨hf, by simp [System.step, h, hw, hf]⟩

/-- What a step can do: nothing; change the server and the place of the main
flow only; panic; register; wake a goroutine; let a woken goroutine load the
flag and call, or not call, its callback. -/
theorem step_effect (y : System) (a : Action) (hp : y.panicked = false) :
    y.step a = y ∨
    (∃ srv1 main1, y.step a = { y with srv := srv1, main := main1 } ∧
      (y.srv.exited = true → srv1.exited = true) ∧
      (srv1.shutdownCalled = y.srv.shutdownCalled ∨
        (srv1.shutdownCalled = 1 ∧ y.main = MainPC.tested)) ∧
      (y.main = MainPC.idle →
        main1 = MainPC.idle ∨ (a = Action.ShutdownTest ∧ y.srv.exited = false))) ∨
    y.step a = { y with panicked := true } ∨
    (y.step a = { y with waiting := y.waiting ++ [y.spawned], spawned := y.spawned + 1 }) ∨
    (∃ id, id ∈ y.waiting ∧ y.srv.exited = true ∧
      y.step a = { y with waiting := y.waiting.erase id, woken := y.woken ++ [id] }) ∨
    (∃ id, id ∈ y.woken ∧ y.srv.shutdownCalled ≠ 1 ∧
      y.step a = { y with woken := y.woken.erase id,
                          calls := y.calls ++ [(id, errOrNil y.srv.err)] }) ∨
    (∃ id, id ∈ y.woken ∧ y.srv.shutdownCalled = 1 ∧
      y.step a = { y with woken := y.woken.erase id }) := by
  cases a with
  | OnUnexpectedShutdown isNil =>
    by_cases hm : y.main = MainPC.idle
    · cases isNil with
      | true =>
        right; right; left
        simp [System.step, hp, hm]
      | false =>
        right; right; right; left
        simp [System.step, hp, hm]
    · left
      simp [System.step, hp, hm]
  | ShutdownTest =>
    by_cases hm : y.main = MainPC.idle
    · by_cases hx : y.srv.exited = true
      · left
        simp [System.step, hp, hm, SqlServer.hasExited, doneIsClosed, hx]
      · have hx0 : y.srv.exited = false := by simpa using hx
        right; left
        refine ⟨y.srv, MainPC.tested, ?_, fun h => h, Or.inl rfl, fun _ => Or.inr ⟨rfl, hx0⟩⟩
        simp [System.step, hp, hm, SqlServer.hasExited, doneIsClosed, hx0]
    · left
      simp [System.step, hp, hm]
  | ShutdownStore =>
    by_cases hm : y.main = MainPC.tested
    · right; left
      refine ⟨{ y.srv with shutdownCalled := 1 }, MainPC.stored, step_store y hp hm, fun h => h,
        Or.inr ⟨rfl, hm⟩, fun h => ?_⟩
      rw [hm] at h
      cases h
    · left
      simp [System.step, hp, hm]
  | ShutdownSignal =>
    by_cases hm : y.main = MainPC.stored
    · right; left
      cases hs : y.srv.cmd.Signal y.srv.signalCalls with
      | none =>
        refine ⟨{ y.srv with signalCalls := y.srv.signalCalls + 1 }, MainPC.signalled, ?_,
          fun h => h, Or.inl rfl, fun h => ?_⟩
        · simp [System.step, hp, hm, hs]
        · rw [hm] at h
          cases h
      | some e =>
        refine ⟨{ y.srv with signalCalls := y.srv.signalCalls + 1 }, MainPC.idle, ?_,
          fun h => h, Or.inl rfl, fun _ => Or.inl rfl⟩
        simp [System.step, hp, hm, hs]
    · left
      simp [System.step, hp, hm]
  | ShutdownWait =>
    by_cases hc : y.main = MainPC.signalled ∧ y.srv.exited = true
    · right; left
      refine ⟨y.srv, MainPC.idle, ?_, fun h => h, Or.inl rfl, fun _ => Or.inl rfl⟩
      simp only [System.step, hp, Bool.false_eq_true, if_false]
      rw [if_pos hc]
    · left
      simp only [System.step, hp, Bool.false_eq_true, if_false]
      rw [if_neg hc]
  | processExit =>
    by_cases hx : y.srv.exited = true
    · left
      simp [System.step, hp, hx]
    · cases hw : y.srv.waitroutine with
      | none =>
        left
        simp [System.step, hp, hx, hw]
      | some s1 =>
        right; left
        have h1 := waitroutine_some _ _ hw
        refine ⟨s1, y.main, ?_, fun _ => h1.1, Or.inl h1.2, fun h => Or.inl h⟩
        simp [System.step, hp, hx, hw]
  | wake id =>
    by_cases hc : id ∈ y.waiting ∧ y.srv.exited = true
    · right; right; right; right; left
      exact ⟨id, hc.1, hc.2, step_wake y id hp hc.1 hc.2⟩
    · left
      simp only [System.step, hp, Bool.false_eq_true, if_false]
      rw [if_neg hc]
  | load id =>
    by_cases hw : id ∈ y.woken
    · rcases step_load y id hp hw with ⟨h1, h2⟩ | ⟨h1, h2⟩
      · right; right; right; right; right; left
        exact ⟨id, hw, h1, h2⟩
      · right; right; right; right; right; right
        exact ⟨id, hw, h1, h2⟩
    · left
      simp [System.step, hp, hw]

theorem init_inv (s : SqlServer) : (System.init s).Inv where
  waiting_lt := by simp [System.init]
  woken_lt := by simp [System.init]
  waiting_nodup := by simp [System.init]
  woken_nodup := by simp [System.init]
  disjoint := by simp [System.init]
  calls_finished := by simp [System.init]
  calls_nodup := by simp [System.init]
  calls_exited := by simp [System.init]
  woken_exited := by simp [System.init]
  finished_called := by simp [System.init]

theorem step_inv (y : System) (a : Action) (h : y.Inv) : (y.step a).Inv := by
  by_cases hp : y.panicked = true
  · rw [step_panicked y a hp]
    exact h
  have hp0 : y.panicked = false := by simpa using hp
  rcases step_effect y a hp0 with h1 | ⟨srv1, main1, h1, hx, hf, -⟩ | h1 | h1 |
    ⟨id, hw, hx, h1⟩ | ⟨id, hw, hf, h1⟩ | ⟨id, hw, hf, h1⟩
  · rw [h1]
    exact h
  · rw [h1]
    refine ⟨h.waiting_lt, h.woken_lt, h.waiting_nodup, h.woken_nodup, h.disjoint,
      h.calls_finished, h.calls_nodup, fun hc => hx (h.calls_exited hc),
      fun hc => hx (h.woken_exited hc), ?_⟩
    intro hne
    apply h.finished_called
    rcases hf with hf | ⟨hf, -⟩
    · rw [← hf]
      exact hne
    · exact absurd hf hne
  · rw [h1]
    exact ⟨h.waiting_lt, h.woken_lt, h.waiting_nodup, h.woken_nodup, h.disjoint,
      h.calls_finished, h.calls_nodup, h.calls_exited, h.woken_exited, h.finished_called⟩
  · rw [h1]
    refine ⟨?_, ?_, ?_, h.woken_nodup, ?_, ?_, h.calls_nodup, h.calls_exited, h.woken_exited, ?_⟩
    · intro id hid
      simp only [List.mem_append, List.mem_singleton] at hid
      show id < y.spawned + 1
      rcases hid with hid | rfl
      · have := h.waiting_lt id hid
        omega
      · omega
    · intro id hid
      have := h.woken_lt id hid
      show id < y.spawned + 1
      omega
    · show (y.waiting ++ [y.spawned]).Nodup
      rw [List.nodup_append]
      refine ⟨h.waiting_nodup, by simp, ?_⟩
      intro x hx hx2
      simp only [List.mem_singleton] at hx2
      subst hx2
      exact absurd (h.waiting_lt _ hx) (by omega)
    · intro id hid
      simp only [List.mem_append, List.mem_singleton] at hid
      show id ∉ y.woken
      rcases hid with hid | rfl
      · exact h.disjoint id hid
      · intro hk
        exact absurd (h.woken_lt _ hk) (by omega)
    · intro id hid
      have := h.calls_finished id hid
      refine ⟨by show id < y.spawned + 1; omega, ?_, this.2.2⟩
      show id ∉ y.waiting ++ [y.spawned]
      simp only [List.mem_append, List.mem_singleton, not_or]
      exact ⟨this.2.1, by omega⟩
    · intro hne id hid hid2 hid3
      have hid1 : id < y.spawned + 1 := hid
      have hid4 : id ∉ y.waiting ++ [y.spawned] := hid2
      simp only [List.mem_append, List.mem_singleton, not_or] at hid4
      exact h.finished_called hne id (by omega) hid4.1 hid3
  · rw [h1]
    have hnk : id ∉ y.woken := h.disjoint id hw
    refine ⟨?_, ?_, h.waiting_nodup.erase id, ?_, ?_, ?_, h.calls_nodup, h.calls_exited,
      fun _ => hx, ?_⟩
    · intro x hxm
      exact h.waiting_lt x (List.mem_of_mem_erase hxm)
    · intro x hxm
      have hxm1 : x ∈ y.woken ++ [id] := hxm
      simp only [List.mem_append, List.mem_singleton] at hxm1
      rcases hxm1 with hxm1 | rfl
      · exact h.woken_lt x hxm1
      · exact h.waiting_lt x hw
    · show (y.woken ++ [id]).Nodup
      rw [List.nodup_append]
      refine ⟨h.woken_nodup, by simp, ?_⟩
      intro x hx1 hx2
      simp only [List.mem_singleton] at hx2
      subst hx2
      exact hnk hx1
    · intro x hxm
      have hxm1 : x ∈ y.waiting.erase id := hxm
      rw [h.waiting_nodup.mem_erase_iff] at hxm1
      show x ∉ y.woken ++ [id]
      simp only [List.mem_append, List.mem_singleton, not_or]
      exact ⟨h.disjoint x hxm1.2, hxm1.1⟩
    · intro x hxm
      have := h.calls_finished x hxm
      refine ⟨this.1, fun hm => this.2.1 (List.mem_of_mem_erase hm), ?_⟩
      show x ∉ y.woken ++ [id]
      simp only [List.mem_append, List.mem_singleton, not_or]
      refine ⟨this.2.2, ?_⟩
      rintro rfl
      exact this.2.1 hw
    · intro hne x hxs hxw hxk
      have hxw1 : x ∉ y.waiting.erase id := hxw
      have hxk1 : x ∉ y.woken ++ [id] := hxk
      simp only [List.mem_append, List.mem_singleton, not_or] at hxk1
      rw [h.waiting_nodup.mem_erase_iff] at hxw1
      exact h.finished_called hne x hxs (fun hm => hxw1 ⟨hxk1.2, hm⟩) hxk1.1
  · rw [h1]
    have hnw : id ∉ y.waiting := fun hm => h.disjoint id hm hw
    have hnew : id ∉ y.calls.map Prod.fst := fun hm => (h.calls_finished id hm).2.2 hw
    have hx : y.srv.exited = true := h.woken_exited (List.ne_nil_of_mem hw)
    refine ⟨h.waiting_lt, ?_, h.waiting_nodup, h.woken_nodup.erase id, ?_, ?_, ?_,
      fun _ => hx, fun _ => hx, ?_⟩
    · intro x hxm
      exact h.woken_lt x (List.mem_of_mem_erase hxm)
    · intro x hxm hxk
      exact h.disjoint x hxm (List.mem_of_mem_erase hxk)
    · intro x hxm
      have hxm1 : x ∈ (y.calls ++ [(id, errOrNil y.srv.err)]).map Prod.fst := hxm
      simp only [List.map_append, List.map_cons, List.map_nil, List.mem_append,
        List.mem_singleton] at hxm1
      show x < y.spawned ∧ x ∉ y.waiting ∧ x ∉ y.woken.erase id
      rcases hxm1 with hxm1 | rfl
      · have := h.calls_finished x hxm1
        exact ⟨this.1, this.2.1, fun hm => this.2.2 (List.mem_of_mem_erase hm)⟩
      · refine ⟨h.woken_lt _ hw, hnw, ?_⟩
        rw [h.woken_nodup.mem_erase_iff]
        simp
    · show ((y.calls ++ [(id, errOrNil y.srv.err)]).map Prod.fst).Nodup
      simp only [List.map_append, List.map_cons, List.map_nil]
      rw [List.nodup_append]
      refine ⟨h.calls_nodup, by simp, ?_⟩
      intro x hx1 hx2
      simp only [List.mem_singleton] at hx2
      subst hx2
      exact hnew hx1
    · intro hne x hxs hxw hxk
      have hxk1 : x ∉ y.woken.erase id := hxk
      show x ∈ (y.calls ++ [(id, errOrNil y.srv.err)]).map Prod.fst
      simp only [List.map_append, List.map_cons, List.map_nil, List.mem_append,
        List.mem_singleton]
      rw [h.woken_nodup.mem_erase_iff] at hxk1
      by_cases hxi : x = id
      · exact Or.inr hxi
      · left
        exact h.finished_called hf x hxs hxw (fun hm => hxk1 ⟨hxi, hm⟩)
  · rw [h1]
    have hx : y.srv.exited = true := h.woken_exited (List.ne_nil_of_mem hw)
    refine ⟨h.waiting_lt, ?_, h.waiting_nodup, h.woken_nodup.erase id, ?_, ?_, h.calls_nodup,
      h.calls_exited, fun _ => hx, ?_⟩
    · intro x hxm
      exact h.woken_lt x (List.mem_of_mem_erase hxm)
    · intro x hxm hxk
      exact h.disjoint x hxm (List.mem_of_mem_erase hxk)
    · intro x hxm
      have := h.calls_finished x hxm
      exact ⟨this.1, this.2.1, fun hm => this.2.2 (List.mem_of_mem_erase hm)⟩
    · intro hne
      exact absurd hf hne

theorem step_exited (y : System) (a : Action) (h : y.srv.exited = true) :
    (y.step a).srv.exited = true := by
  by_cases hp : y.panicked = true
  · rw [step_panicked y a hp]
    exact h
  have hp0 : y.panicked = false := by simpa using hp
  rcases step_effect y a hp0 with h1 | ⟨srv1, main1, h1, hx, -, -⟩ | h1 | h1 |
    ⟨id, -, -, h1⟩ | ⟨id, -, -, h1⟩ | ⟨id, -, -, h1⟩ <;> rw [h1]
  · exact h
  · exact hx h
  all_goals exact h

theorem step_flag_one (y : System) (a : Action) (h : y.srv.shutdownCalled = 1) :
    (y.step a).srv.shutdownCalled = 1 ∧ (y.step a).calls = y.calls := by
  by_cases hp : y.panicked = true
  · rw [step_panicked y a hp]
    exact ⟨h, rfl⟩
  have hp0 : y.panicked = false := by simpa using hp
  rcases step_effect y a hp0 with h1 | ⟨srv1, main1, h1, -, hf, -⟩ | h1 | h1 |
    ⟨id, -, -, h1⟩ | ⟨id, -, hf, h1⟩ | ⟨id, -, -, h1⟩ <;> rw [h1]
  · exact ⟨h, rfl⟩
  · refine ⟨?_, rfl⟩
    rcases hf with hf | ⟨hf, -⟩
    · show srv1.shutdownCalled = 1
      rw [hf]
      exact h
    · exact hf
  · exact ⟨h, rfl⟩
  · exact ⟨h, rfl⟩
  · exact ⟨h, rfl⟩
  · exact absurd h hf
  · exact ⟨h, rfl⟩

/-- Once the process has exited with the main flow outside `Shutdown` and the
flag not set, the flag is never set. -/
theorem step_exited_idle (y : System) (a : Action)
    (h : y.srv.exited = true ∧ y.main = MainPC.idle ∧ y.srv.shutdownCalled ≠ 1) :
    (y.step a).srv.exited = true ∧ (y.step a).main = MainPC.idle ∧
      (y.step a).srv.shutdownCalled ≠ 1 := by
  by_cases hp : y.panicked = true
  · rw [step_panicked y a hp]
    exact h
  have hp0 : y.panicked = false := by simpa using hp
  rcases step_effect y a hp0 with h1 | ⟨srv1, main1, h1, hx, hf, hm⟩ | h1 | h1 |
    ⟨id, -, -, h1⟩ | ⟨id, -, -, h1⟩ | ⟨id, -, -, h1⟩ <;> rw [h1]
  · exact h
  · refine ⟨hx h.1, ?_, ?_⟩
    · rcases hm h.2.1 with hm | ⟨-, hm⟩
      · exact hm
      · rw [h.1] at hm
        cases hm
    · rcases hf with hf | ⟨-, hf⟩
      · show srv1.shutdownCalled ≠ 1
        rw [hf]
        exact h.2.2
      · rw [h.2.1] at hf
        cases hf
  all_goals exact h

/-- As long as `Shutdown` is not called, the main flow is outside `Shutdown`
and the flag is not set. -/
theorem step_idle (y : System) (a : Action) (ha : a ≠ Action.ShutdownTest)
    (h : y.main = MainPC.idle ∧ y.srv.shutdownCalled ≠ 1) :
    (y.step a).main = MainPC.idle ∧ (y.step a).srv.shutdownCalled ≠ 1 := by
  by_cases hp : y.panicked = true
  · rw [step_panicked y a hp]
    exact h
  have hp0 : y.panicked = false := by simpa using hp
  rcases step_effect y a hp0 with h1 | ⟨srv1, main1, h1, -, hf, hm⟩ | h1 | h1 |
    ⟨id, -, -, h1⟩ | ⟨id, -, -, h1⟩ | ⟨id, -, -, h1⟩ <;> rw [h1]
  · exact h
  · refine ⟨?_, ?_⟩
    · rcases hm h.1 with hm | ⟨hm, -⟩
      · exact hm
      · exact absurd hm ha
    · rcases hf with hf | ⟨-, hf⟩
      · show srv1.shutdownCalled ≠ 1
        rw [hf]
        exact h.2
      · rw [h.1] at hf
        cases hf
  all_goals exact h

theorem step_spawned (y : System) (a : Action) : y.spawned ≤ (y.step a).spawned := by
  by_cases hp : y.panicked = true
  · rw [step_panicked y a hp]
  have hp0 : y.panicked = false := by simpa using hp
  rcases step_effect y a hp0 with h1 | ⟨srv1, main1, h1, -, -, -⟩ | h1 | h1 |
    ⟨id, -, -, h1⟩ | ⟨id, -, -, h1⟩ | ⟨id, -, -, h1⟩ <;> rw [h1]
  all_goals simp

theorem run_nil (y : System) : y.run [] = y := rfl

theorem run_cons (y : System) (a : Action) (as : List Action) :
    y.run (a :: as) = (y.step a).run as := rfl

theorem run_append (y : System) (as bs : List Action) :
    y.run (as ++ bs) = (y.run as).run bs := by
  simp [System.run]

theorem run_inv (y : System) (as : List Action) (h : y.Inv) : (y.run as).Inv := by
  induction as generalizing y with
  | nil => exact h
  | cons a as ih =>
    rw [run_cons]
    exact ih _ (step_inv y a h)

theorem run_flag_one (y : System) (as : List Action) (h : y.srv.shutdownCalled = 1) :
    (y.run as).calls = y.calls := by
  induction as generalizing y with
  | nil => rfl
  | cons a as ih =>
    rw [run_cons, ih _ (step_flag_one y a h).1, (step_flag_one y a h).2]

theorem run_exited_idle (y : System) (as : List Action)
    (h : y.srv.exited = true ∧ y.main = MainPC.idle ∧ y.srv.shutdownCalled ≠ 1) :
    (y.run as).srv.exited = true ∧ (y.run as).srv.shutdownCalled ≠ 1 := by
  induction as generalizing y with
  | nil => exact ⟨h.1, h.2.2⟩
  | cons a as ih =>
    rw [run_cons]
    exact ih _ (step_exited_idle y a h)

theorem run_idle (y : System) (as : List Action) (ha : Action.ShutdownTest ∉ as)
    (h : y.main = MainPC.idle ∧ y.srv.shutdownCalled ≠ 1) :
    (y.run as).main = MainPC.idle ∧ (y.run as).srv.shutdownCalled ≠ 1 := by
  induction as generalizing y with
  | nil => exact h
  | cons a as ih =>
    rw [run_cons]
    simp only [List.mem_cons, not_or] at ha
    exact ih _ ha.2 (step_idle y a (fun e => ha.1 e.symm) h)

theorem run_spawned (y : System) (as : List Action) : y.spawned ≤ (y.run as).spawned := by
  induction as generalizing y with
  | nil => exact le_refl _
  | cons a as ih =>
    rw [run_cons]
    exact le_trans (step_spawned y a) (ih _)

/-- A goroutine that has been woken runs to its end when it is scheduled. -/
theorem load_finishes (y : System) (id : Nat) (h : y.Inv) (hp : y.panicked = false)
    (hw : id ∈ y.woken) : (y.step (Action.load id)).finished id := by
  have hlt := h.woken_lt id hw
  have hnw : id ∉ y.waiting := fun hm => h.disjoint id hm hw
  have hne : id ∉ y.woken.erase id := by
    rw [h.woken_nodup.mem_erase_iff]
    simp
  rcases step_load y id hp hw with ⟨-, h1⟩ | ⟨-, h1⟩ <;> rw [h1] <;> exact ⟨hlt, hnw, hne⟩

/-- A registered goroutine runs to its end when it is scheduled after the exit
of the process. -/
theorem wake_load_finishes (y : System) (id : Nat) (h : y.Inv) (hp : y.panicked = false)
    (hx : y.srv.exited = true) (hw : id ∈ y.waiting ∨ id ∈ y.woken) :
    (y.run [Action.wake id, Action.load id]).finished id := by
  rw [run_cons, run_cons, run_nil]
  rcases hw with hw | hw
  · have h1 := step_wake y id hp hw hx
    apply load_finishes _ _ (step_inv y _ h)
    · rw [h1]
      exact hp
    · rw [h1]
      show id ∈ y.woken ++ [id]
      simp
  · have hnw : id ∉ y.waiting := fun hm => h.disjoint id hm hw
    have h1 : y.step (Action.wake id) = y := by
      simp [System.step, hp, hnw]
    rw [h1]
    exact load_finishes y id h hp hw

/-- The steps of a `Shutdown` call, taken with nothing in between but the exit
of the process it waits for, leave the server as the function `Shutdown`
does: on a server that has exited, on one whose signal is not delivered, and
on one whose signal is delivered. -/
theorem steps_Shutdown (s : SqlServer) :
    (s.exited = true → ((System.init s).run [Action.ShutdownTest]).srv = s.Shutdown.2) ∧
    (s.exited = false → s.cmd.Signal s.signalCalls ≠ none →
      ((System.init s).run [Action.ShutdownTest, Action.ShutdownStore,
        Action.ShutdownSignal]).srv = s.Shutdown.2) ∧
    (s.exited = false → s.cmd.Signal s.signalCalls = none →
      ((System.init s).run [Action.ShutdownTest, Action.ShutdownStore, Action.ShutdownSignal,
        Action.processExit, Action.ShutdownWait]).srv = s.Shutdown.2) := by
  refine ⟨?_, ?_, ?_⟩
  · intro hx
    rw [Shutdown_of_exited s hx]
    simp [System.run, System.step, System.init, SqlServer.hasExited, doneIsClosed, hx]
  · intro hx0 hs
    rw [Shutdown_of_running s hx0]
    cases hs1 : s.cmd.Signal s.signalCalls with
    | none => exact absurd hs1 hs
    | some e =>
      simp [System.run, System.step, System.init, SqlServer.hasExited, doneIsClosed, hx0,
        SqlServer.signalAndWait, hs1]
  · intro hx0 hs
    rw [Shutdown_of_running s hx0]
    cases hw : s.cmd.Wait (s.signalCalls + 1) with
    | none =>
      simp [System.run, System.step, System.init, SqlServer.hasExited, doneIsClosed, hx0,
        SqlServer.signalAndWait, hs, SqlServer.wait, SqlServer.waitroutine, hw]
    | some r =>
      simp [System.run, System.step, System.init, SqlServer.hasExited, doneIsClosed, hx0,
        SqlServer.signalAndWait, hs, SqlServer.wait, SqlServer.waitroutine, hw]

/-! # Part III: the claims -/

/-- C2. In every run of the script-execution loop of `execCmdRun`, a script
counting as started from the moment its iteration of the loop is entered:
(1) an event of the script at 0-based position `k` that is not a reset (its
load, its log lines, each of its `Exec` calls) is preceded by exactly `k`
`ResetSession` calls, and the `ResetSession` call made for script `k` is the
`k`-th such call: so no reset precedes the first script, and no `Exec` of
script `i+1` (counting from one) precedes the `i`-th reset; (2) when `started`
scripts are started, i.e. the scripts of the events of the run are exactly the
positions below `started`, `ResetSession` is called `started - 1` times, and
`started ≥ 1` for a non-empty list of scripts; (3) when no `ResetSession` call
fails, the number of `ResetSession` calls is also one less than the number of
scripts whose batches the run has begun to load. -/
theorem execCmdRun_resets_between_scripts {σ : Type} (conn : SqlConn σ)
    (load : String → Except String (List String)) (scripts : List String) (s : σ) :
    (∀ pre e post, (execCmdRunLoop conn load scripts s).trace = pre ++ e :: post →
      resetCalls pre + (if e.isReset then 1 else 0) = e.script) ∧
    (∃ started, started ≤ scripts.length ∧ (scripts ≠ [] → 1 ≤ started) ∧
      (∀ i, i < started ↔ ∃ e ∈ (execCmdRunLoop conn load scripts s).trace, e.script = i) ∧
      resetCalls (execCmdRunLoop conn load scripts s).trace = started - 1) ∧
    (scripts ≠ [] → (execCmdRunLoop conn load scripts s).outcome.isResetFailed = false →
      resetCalls (execCmdRunLoop conn load scripts s).trace + 1 =
        loadCalls (execCmdRunLoop conn load scripts s).trace) := by
  refine ⟨?_, ?_, ?_⟩
  · intro pre e post h
    have := execLoop_resets_before conn load false 0 scripts s pre post e h
    simpa using this
  · obtain ⟨n, h1, h2, h3, h4⟩ := execLoop_started conn load false 0 scripts s
    refine ⟨n, h1, h2, ?_, by simpa using h3⟩
    intro i
    have := h4 i
    simp only [Nat.zero_le, true_and, Nat.zero_add] at this
    exact this
  · intro hne hnr
    cases scripts with
    | nil => exact absurd rfl hne
    | cons f rest =>
      have := execLoop_resets_loads conn load false 0 f rest s
      unfold execCmdRunLoop at hnr ⊢
      rw [hnr] at this
      simpa using this

/-- C2, the scenario of the specification: with scripts `A`, `B` (failing in
its second batch) and `C`, `ResetSession` is called exactly once, that call
stands between the last event of `A` and the load of `B`, and exactly one
reset precedes the `Exec` of the first batch of `B`. -/
theorem execCmdRun_resets_between_scripts_witness :
    resetCalls (execCmdRunLoop (failOn "B2") demoLoad
      ["sql/A.sql", "sql/B.sql", "sql/C.sql"] 0).trace = 1 ∧
    (execCmdRunLoop (failOn "B2") demoLoad ["sql/A.sql", "sql/B.sql", "sql/C.sql"] 0).trace.drop 8
      = [Event.logCompleted 0 "A", Event.resetSession 1 none, Event.loadBatches 1 "sql/B.sql",
          Event.logBatches 1 "B" 2, Event.logProgress 1 "B" 1 2 0, Event.exec 1 1 "B1" none,
          Event.logProgress 1 "B" 2 2 50, Event.exec 1 2 "B2" (some "exec error")] ∧
    resetCalls ((execCmdRunLoop (failOn "B2") demoLoad
      ["sql/A.sql", "sql/B.sql", "sql/C.sql"] 0).trace.take 13) = 1 := by
  refine ⟨by decide, by decide, ?_⟩
  have h := (execCmdRun_resets_between_scripts (failOn "B2") demoLoad
    ["sql/A.sql", "sql/B.sql", "sql/C.sql"] 0).1
    ((execCmdRunLoop (failOn "B2") demoLoad ["sql/A.sql", "sql/B.sql", "sql/C.sql"] 0).trace.take 13)
    (Event.exec 1 1 "B1" none)
    [Event.logProgress 1 "B" 2 2 50, Event.exec 1 2 "B2" (some "exec error")] (by decide)
  simpa [Event.isReset, Event.script] using h

/-- C9, as stated, fails: the loop does not skip an empty-text batch.  For the
script `sql/C.sql` with batches `C1`, the empty text, `C3`, `Exec` is called on
all three, the empty one included. -/
theorem execCmdRun_executes_empty_batch :
    execCalls (execCmdRunLoop (failOn "B2") demoLoad ["sql/C.sql"] 0).trace
      = [(0, 1, "C1"), (0, 2, ""), (0, 3, "C3")] ∧
    Event.exec 0 2 "" none ∈ (execCmdRunLoop (failOn "B2") demoLoad ["sql/C.sql"] 0).trace := by
  constructor <;> decide

/-- C9, amended.  For every script of a run that runs to completion (its
`completed` line is logged), whatever its batches are, an empty-text batch
included: the events of the script are its load, the line with its batch
count, then for each batch in order the progress line and the `Exec` call,
both with the batch's 1-based index in the whole list, the progress line with
the full batch count, and then the `completed` line.  In particular `Exec` is
called on every batch, and no batch's index or count depends on the text of
another. -/
theorem execCmdRun_executes_every_batch {σ : Type} (conn : SqlConn σ)
    (load : String → Except String (List String)) (scripts : List String) (s : σ)
    (k : Nat) (n : String)
    (h : Event.logCompleted k n ∈ (execCmdRunLoop conn load scripts s).trace) :
    ∃ f bs pre post, scripts.get? k = some f ∧ load f = Except.ok bs ∧ n = baseNoExt f ∧
      (execCmdRunLoop conn load scripts s).trace =
        pre ++ (Event.loadBatches k f :: Event.logBatches k n bs.length ::
          (batchEvents k n bs.length 0 bs ++ [Event.logCompleted k n])) ++ post ∧
      ∀ i q, bs.get? i = some q →
        Event.logProgress k n (i + 1) bs.length (100 * i / bs.length) ∈
          (execCmdRunLoop conn load scripts s).trace ∧
        Event.exec k (i + 1) q none ∈ (execCmdRunLoop conn load scripts s).trace := by
  obtain ⟨-, f, bs, pre, post, h1, h2, h3, h4⟩ :=
    execLoop_completed conn load false 0 scripts s k n h
  refine ⟨f, bs, pre, post, by simpa using h1, h2, h3, h4, ?_⟩
  intro i q hq
  have hm := mem_batchEvents k n bs.length 0 bs i q hq
  simp only [Nat.zero_add] at hm
  unfold execCmdRunLoop
  rw [h4]
  constructor
  · simp [hm.1]
  · simp [hm.2]

/-- C9, amended, at a script with an empty batch: `sql/C.sql` completes, and
its empty second batch is reported and executed as batch 2 of 3. -/
theorem execCmdRun_executes_every_batch_witness :
    Event.logCompleted 0 "C" ∈ (execCmdRunLoop (failOn "B2") demoLoad ["sql/C.sql"] 0).trace ∧
    ∃ f bs, demoLoad f = Except.ok bs ∧ bs.get? 1 = some "" ∧
      Event.logProgress 0 "C" 2 bs.length (100 * 1 / bs.length) ∈
        (execCmdRunLoop (failOn "B2") demoLoad ["sql/C.sql"] 0).trace ∧
      Event.exec 0 2 "" none ∈ (execCmdRunLoop (failOn "B2") demoLoad ["sql/C.sql"] 0).trace := by
  refine ⟨by decide, ?_⟩
  obtain ⟨f, bs, -, -, h1, h2, -, -, h5⟩ :=
    execCmdRun_executes_every_batch (failOn "B2") demoLoad ["sql/C.sql"] 0 0 "C" (by decide)
  have hf : f = "sql/C.sql" := by simpa using h1.symm
  subst hf
  have hb : bs = ["C1", "", "C3"] := by
    have : demoLoad "sql/C.sql" = Except.ok ["C1", "", "C3"] := rfl
    rw [this] at h2
    cases h2
    rfl
  subst hb
  exact ⟨"sql/C.sql", ["C1", "", "C3"], rfl, rfl, h5 1 "" rfl⟩

/-- C10. `ValidatePassword(pw)` returns no error exactly when the length of
`pw` (Go `len`, in bytes) is between 8 and 128, both included; a shorter
password is rejected as too short, a longer one as too long.  The password of
the test suite is accepted and `short` is rejected. -/
theorem ValidatePassword_accepts_iff_length_8_to_128 :
    (∀ pw : String, (ValidatePassword pw = none ↔ 8 ≤ len pw ∧ len pw ≤ 128) ∧
      (len pw < 8 → ValidatePassword pw = some "Password too short") ∧
      (128 < len pw → ValidatePassword pw = some "Password too long")) ∧
    ValidatePassword "!SQLBUILD2018" = none ∧
    ValidatePassword "short" = some "Password too short" := by
  refine ⟨?_, by decide, by decide⟩
  intro pw
  unfold ValidatePassword
  refine ⟨?_, ?_, ?_⟩
  · by_cases h1 : len pw < 8
    · simp [h1]
    · by_cases h2 : len pw > 128
      · simp [h1, h2]
      · simp [h1, h2]
        omega
  · intro h
    simp [h]
  · intro h
    have h1 : ¬ len pw < 8 := by omega
    simp [h1, h]

/-- C8. For every `SqlServer` whose `exited` channel is closed, `Shutdown`
returns, the error it returns is the recorded `s.err`, and the state after the
call is the state before it: no SIGTERM is sent and no field changes, the
`shutdownCalled` flag included. -/
theorem Shutdown_after_exit_returns_recorded_outcome (s : SqlServer) (h : s.exited = true) :
    s.Shutdown = (some s.err, s) ∧ s.Shutdown.2.signalCalls = s.signalCalls ∧
      s.Shutdown.2.shutdownCalled = s.shutdownCalled := by
  rw [Shutdown_of_exited s h]
  exact ⟨rfl, rfl, rfl⟩

/-- C8 at a server whose process has exited on its own with `exit status 1`. -/
theorem Shutdown_after_exit_returns_recorded_outcome_witness :
    ({ demoServer with exited := true, err := some "exit status 1" } : SqlServer).Shutdown.1
        = some (some "exit status 1") ∧
      ({ demoServer with exited := true, err := some "exit status 1" } : SqlServer).Shutdown.2.signalCalls
        = 0 ∧
      ({ demoServer with exited := true, err := some "exit status 1" } : SqlServer).Shutdown.2.shutdownCalled
        = 0 := by
  have h := Shutdown_after_exit_returns_recorded_outcome
    { demoServer with exited := true, err := some "exit status 1" } rfl
  exact ⟨by rw [h.1], h.2.1, h.2.2⟩

/-- C3, as stated, fails at a server whose process has already exited: two
`Shutdown` calls in sequence return the same outcome, but no SIGTERM is sent
over the two calls, not one. -/
theorem Shutdown_twice_after_exit_sends_no_signal :
    ({ demoServer with exited := true, err := some "exit status 1" } : SqlServer).Shutdown.1
        = some (some "exit status 1") ∧
      ({ demoServer with exited := true, err := some "exit status 1" } :
          SqlServer).Shutdown.2.Shutdown.1 = some (some "exit status 1") ∧
      ({ demoServer with exited := true, err := some "exit status 1" } :
          SqlServer).Shutdown.2.Shutdown.2.signalCalls = 0 ∧
      ¬ (({ demoServer with exited := true, err := some "exit status 1" } :
          SqlServer).Shutdown.2.Shutdown.2.signalCalls =
        ({ demoServer with exited := true, err := some "exit status 1" } :
          SqlServer).signalCalls + 1) := by
  refine ⟨rfl, rfl, rfl, ?_⟩
  decide

/-- C3, amended.  For every `SqlServer` state whose process has already exited,
or whose process takes the SIGTERM and then exits: calling `Shutdown` twice in
sequence returns both times, with the same exit outcome, and over the two calls
SIGTERM is sent exactly once when the process was still running at the first
call and not at all when it had already exited. -/
theorem Shutdown_twice_same_outcome (s : SqlServer)
    (h : s.exited = true ∨
      (s.cmd.Signal s.signalCalls = none ∧ ∃ e, s.cmd.Wait (s.signalCalls + 1) = some e)) :
    ∃ r, s.Shutdown.1 = some r ∧ s.Shutdown.2.Shutdown.1 = some r ∧
      s.Shutdown.2.Shutdown.2.signalCalls = s.signalCalls + (if s.exited then 0 else 1) := by
  by_cases hx : s.exited = true
  · refine ⟨s.err, ?_⟩
    rw [Shutdown_of_exited s hx]
    simp only
    rw [Shutdown_of_exited s hx]
    simp [hx]
  · rcases h with h | ⟨hs, e, hw⟩
    · exact absurd h hx
    · have hx0 : s.exited = false := by simpa using hx
      refine ⟨e, ?_⟩
      rw [Shutdown_of_running s hx0, signalAndWait_delivered s e hx0 hs hw]
      simp only
      rw [Shutdown_of_exited _ rfl]
      simp [hx0]

/-- C3, amended, at a running server: both calls return the clean exit, and one
SIGTERM is sent. -/
theorem Shutdown_twice_same_outcome_witness :
    ∃ r, demoServer.Shutdown.1 = some r ∧ demoServer.Shutdown.2.Shutdown.1 = some r ∧
      demoServer.Shutdown.2.Shutdown.2.signalCalls = 0 + 1 :=
  Shutdown_twice_same_outcome demoServer (Or.inr ⟨rfl, none, rfl⟩)

/-- C7. For every `k`, when the health check fails on attempts `0..k-1` (the
first `k` attempts) and succeeds on attempt `k` (the `k+1`-st), `done` is never
closed, the ticker keeps ticking, and none of the failing loop attempts ends
after the deadline: `pingLoop` returns `nil`, after exactly `k+1` attempts and exactly `k`
ticks, and the successful attempt is the last thing it does.  It does so for
every bound of at least `k` executions of the `select`, and no bound gives
another result. -/
theorem pingLoop_succeeds_after_k_failures (w : PingWorld) (timeout : Int) (k : Nat)
    (hfail : ∀ j, j < k → ∃ e, w.ping j = some e) (hok : w.ping k = none)
    (hdone : ∀ n, w.doneClosed n = false) (htick : ∀ n, w.tickReady n = true)
    (hdl : ∀ j, 1 ≤ j → j < k → w.now j ≤ w.start + timeout) :
    ∃ tr, (∀ fuel, k ≤ fuel → pingLoop w timeout fuel = some ⟨none, tr⟩) ∧
      (∀ fuel r, pingLoop w timeout fuel = some r → r = ⟨none, tr⟩) ∧
      attempts tr = k + 1 ∧ ticks tr = k ∧ tr.getLast? = some (PingEvent.ping k none) := by
  have hsel : ∀ n, w.select n = some Sel.tick := fun n => select_tick w n (htick n) (hdone n)
  have key : ∃ tr, (∀ fuel, k ≤ fuel → pingLoop w timeout fuel = some ⟨none, tr⟩) ∧
      attempts tr = k + 1 ∧ ticks tr = k ∧ tr.getLast? = some (PingEvent.ping k none) := by
    cases k with
    | zero =>
      refine ⟨[PingEvent.ping 0 none], ?_, rfl, rfl, rfl⟩
      intro fuel _
      simp [pingLoop, hok]
    | succ m =>
      obtain ⟨e0, h0⟩ := hfail 0 (by omega)
      refine ⟨PingEvent.ping 0 (some e0) ::
        (failedIterations w 0 m ++ [PingEvent.tick, PingEvent.ping (m + 1) none]), ?_, ?_, ?_, ?_⟩
      · intro fuel hfuel
        obtain ⟨f, rfl⟩ : ∃ f, fuel = (f + 1) + m := ⟨fuel - (m + 1), by omega⟩
        rw [pingLoop_skip w timeout m (f + 1) e0 h0]
        · simp [pingLoop.loop, hsel m, hok]
        · intro j hj
          refine ⟨hsel j, hfail (j + 1) (by omega), ?_⟩
          have := hdl (j + 1) (by omega) (by omega)
          omega
      · have := attempts_failedIterations w 0 m
        simp only [attempts] at this
        simp [attempts, PingEvent.isPing, this]
      · have := ticks_failedIterations w 0 m
        simp only [ticks] at this
        simp [ticks, this]
      · exact getLast_cons_append_pair _ _ _ _
  obtain ⟨tr, h1, h2, h3, h4⟩ := key
  refine ⟨tr, h1, ?_, h2, h3, h4⟩
  intro fuel r hr
  exact pingLoop_unique w timeout fuel k r _ hr (h1 k (le_refl _))

/-- C7, the scenario of the specification: a check that fails twice and then
succeeds, against a deadline of 15 seconds, returns success after the third
attempt and two ticks. -/
theorem pingLoop_succeeds_after_k_failures_witness :
    ∃ tr, (∀ fuel, 2 ≤ fuel → pingLoop (failsThenSucceeds 2) (15 * second) fuel = some ⟨none, tr⟩) ∧
      (∀ fuel r, pingLoop (failsThenSucceeds 2) (15 * second) fuel = some r → r = ⟨none, tr⟩) ∧
      attempts tr = 2 + 1 ∧ ticks tr = 2 ∧ tr.getLast? = some (PingEvent.ping 2 none) :=
  pingLoop_succeeds_after_k_failures (failsThenSucceeds 2) (15 * second) 2
    (fun j hj => ⟨"Sqlcmd: Error: Login timeout expired", by simp [failsThenSucceeds, hj]⟩)
    (by simp [failsThenSucceeds]) (fun _ => rfl) (fun _ => rfl)
    (fun j h1 h2 => by
      have : j = 1 := by omega
      subst this
      simp [failsThenSucceeds, second])

/-- C5. For every timeout, when every attempt fails, `done` is never closed
and the ticker keeps ticking:
(1) whenever `pingLoop` returns, it returns after an attempt `k ≥ 1` that ended
after the deadline `start + timeout` (the clock read after it is past the
deadline), every earlier loop attempt having ended no later than the deadline;
the error returned is the error of that attempt `k`, which is the last of the
`k+1` attempts made and the last thing `pingLoop` did;
(2) if the `n`-th tick is not received before `n` seconds have passed, it does
return, after at most `timeout / second + 1` ticks. -/
theorem pingLoop_returns_last_failure_after_deadline (w : PingWorld) (timeout : Int)
    (hfail : ∀ n, ∃ e, w.ping n = some e)
    (hdone : ∀ n, w.doneClosed n = false) (htick : ∀ n, w.tickReady n = true) :
    (∀ fuel r, pingLoop w timeout fuel = some r →
      ∃ k e, 1 ≤ k ∧ w.ping k = some e ∧ r.err = some (PollError.PingError e) ∧
        attempts r.trace = k + 1 ∧ r.trace.getLast? = some (PingEvent.ping k (some e)) ∧
        w.start + timeout < w.now k ∧ ∀ j, 1 ≤ j → j < k → w.now j ≤ w.start + timeout) ∧
    ((∀ n : Nat, w.start + n * second ≤ w.now n) →
      ∃ k, k ≤ (timeout / second).toNat + 1 ∧
        ∀ fuel, k ≤ fuel → ∃ r, pingLoop w timeout fuel = some r) := by
  have hsel : ∀ n, w.select n = some Sel.tick := fun n => select_tick w n (htick n) (hdone n)
  constructor
  · intro fuel r h
    obtain ⟨e0, h0⟩ := hfail 0
    unfold pingLoop at h
    simp only [h0] at h
    cases hx : pingLoop.loop w (w.start + timeout) fuel 0 with
    | none => simp [hx] at h
    | some r1 =>
      simp only [hx, Option.some.injEq] at h
      subst h
      obtain ⟨c, e, h1, h2, h3, h4⟩ := loop_all_fail w _ hfail hsel fuel 0 r1 hx
      simp only [Nat.zero_add] at h1 h2 h3 h4
      refine ⟨c + 1, e, by omega, h1, by rw [h2], ?_, ?_, h3, ?_⟩
      · rw [h2]
        have := attempts_failedIterations w 0 c
        simp only [attempts] at this
        simp [attempts, PingEvent.isPing, this]
      · rw [h2]
        exact getLast_cons_append_pair _ _ _ _
      · intro j hj1 hj2
        exact h4 j (by omega) hj2
  · intro hclock
    obtain ⟨k, e, tr, -, h2, h3, -⟩ := pingLoop_all_fail_returns w timeout hfail hsel hclock
    exact ⟨k, h2, fun fuel hf => ⟨_, h3 fuel hf⟩⟩

/-- C5 at a check that always fails, against a deadline of 3 seconds: the run
ends after the fourth attempt, the first loop attempt to end after the
deadline, with the error of that attempt. -/
theorem pingLoop_returns_last_failure_after_deadline_witness :
    pingLoop (alwaysFails false) (3 * second) 3 =
      some ⟨some (PollError.PingError "attempt 3 failed"),
        [PingEvent.ping 0 (some "attempt 0 failed"),
          PingEvent.tick, PingEvent.ping 1 (some "attempt 1 failed"),
          PingEvent.tick, PingEvent.ping 2 (some "attempt 2 failed"),
          PingEvent.tick, PingEvent.ping 3 (some "attempt 3 failed")]⟩ ∧
    (∃ k e, 1 ≤ k ∧ (alwaysFails false).ping k = some e ∧
      some (PollError.PingError "attempt 3 failed") = some (PollError.PingError e) ∧
      (alwaysFails false).start + 3 * second < (alwaysFails false).now k) ∧
    (∃ k, k ≤ (3 * second / second).toNat + 1 ∧
      ∀ fuel, k ≤ fuel → ∃ r, pingLoop (alwaysFails false) (3 * second) fuel = some r) := by
  have h := pingLoop_returns_last_failure_after_deadline (alwaysFails false) (3 * second)
    (fun _ => ⟨_, rfl⟩) (fun _ => rfl) (fun _ => rfl)
  have hrun : pingLoop (alwaysFails false) (3 * second) 3 =
      some ⟨some (PollError.PingError "attempt 3 failed"),
        [PingEvent.ping 0 (some "attempt 0 failed"),
          PingEvent.tick, PingEvent.ping 1 (some "attempt 1 failed"),
          PingEvent.tick, PingEvent.ping 2 (some "attempt 2 failed"),
          PingEvent.tick, PingEvent.ping 3 (some "attempt 3 failed")]⟩ := by decide
  refine ⟨hrun, ?_, h.2 (fun n => by simp [alwaysFails, second])⟩
  obtain ⟨k, e, h1, h2, h3, -, -, h4, -⟩ := h.1 3 _ hrun
  exact ⟨k, e, h1, h2, h3, h4⟩

/-- C6. (1) If the immediate first attempt fails and, when the first `select`
proceeds, `done` is closed and no tick is there yet (the cancellation is set
before the first tick), `pingLoop` returns `ErrCanceled` after that one
attempt, without a tick and without a further attempt.  (2) Whenever `pingLoop` returns `ErrCanceled`, the receive
from `done` is the last thing it has done, and the only such receive: no
attempt is started after the cancellation is observed. -/
theorem pingLoop_cancelled_makes_no_further_attempt (w : PingWorld) (timeout : Int) :
    (∀ e, w.ping 0 = some e → w.doneClosed 0 = true → w.tickReady 0 = false →
      ∀ fuel, 1 ≤ fuel →
      pingLoop w timeout fuel =
        some ⟨some PollError.ErrCanceled, [PingEvent.ping 0 (some e), PingEvent.done]⟩) ∧
    (∀ fuel r, pingLoop w timeout fuel = some r → r.err = some PollError.ErrCanceled →
      ∃ pre, r.trace = pre ++ [PingEvent.done] ∧ PingEvent.done ∉ pre) := by
  constructor
  · intro e h0 hd ht fuel hfuel
    obtain ⟨f, rfl⟩ : ∃ f, fuel = f + 1 := ⟨fuel - 1, by omega⟩
    simp [pingLoop, h0, pingLoop.loop, select_done w 0 ht hd]
  · intro fuel r h hr
    unfold pingLoop at h
    cases hp : w.ping 0 with
    | none =>
      simp only [hp, Option.some.injEq] at h
      subst h
      simp at hr
    | some e =>
      simp only [hp] at h
      cases hx : pingLoop.loop w (w.start + timeout) fuel 0 with
      | none => simp [hx] at h
      | some r1 =>
        simp only [hx, Option.some.injEq] at h
        subst h
        obtain ⟨pre, h1, h2⟩ := loop_cancelled w _ fuel 0 r1 hx hr
        exact ⟨PingEvent.ping 0 (some e) :: pre, by simp [h1], by simp [h2]⟩

/-- C6 at a check whose first attempt fails and that is cancelled before the
first tick: one attempt, then `ErrCanceled`. -/
theorem pingLoop_cancelled_makes_no_further_attempt_witness :
    pingLoop (alwaysFails true) (15 * second) 1 =
        some ⟨some PollError.ErrCanceled,
          [PingEvent.ping 0 (some "attempt 0 failed"), PingEvent.done]⟩ ∧
      attempts [PingEvent.ping 0 (some "attempt 0 failed"), PingEvent.done] = 1 :=
  ⟨(pingLoop_cancelled_makes_no_further_attempt (alwaysFails true) (15 * second)).1
    "attempt 0 failed" (by decide) rfl rfl 1 (le_refl _), rfl⟩

/-- C4, as stated, fails.  A callback is registered, the main flow calls
`Shutdown` on the running process and finds `hasExited()` false; the process
then exits by itself, the goroutine of the registration returns from
`s.wait()`, loads the flag, which is still 0, and invokes the callback; only
then does `Shutdown` store the flag.  The callback has been invoked although
the exit followed the `Shutdown` call. -/
theorem OnUnexpectedShutdown_invoked_inside_Shutdown :
    ((System.init demoServer).run
        [Action.OnUnexpectedShutdown false, Action.ShutdownTest]).main = MainPC.tested ∧
    ((System.init demoServer).run
        [Action.OnUnexpectedShutdown false, Action.ShutdownTest]).srv.exited = false ∧
    ((System.init demoServer).run
        [Action.OnUnexpectedShutdown false, Action.ShutdownTest, Action.processExit,
          Action.wake 0, Action.load 0, Action.ShutdownStore]).calls = [(0, "exit status 1")] ∧
    ((System.init demoServer).run
        [Action.OnUnexpectedShutdown false, Action.ShutdownTest, Action.processExit,
          Action.wake 0, Action.load 0, Action.ShutdownStore]).srv.shutdownCalled = 1 ∧
    ((System.init demoServer).run
        [Action.OnUnexpectedShutdown false, Action.ShutdownTest, Action.processExit,
          Action.wake 0, Action.load 0, Action.ShutdownStore]).invocations 0 = 1 := by
  refine ⟨by decide, by decide, by decide, by decide, by decide⟩

/-- C4, amended.  Take the program right after `StartSqlServer` has returned a
server (flag not set), and let it take any sequence of steps, in any order:
registrations, the statements of `Shutdown` calls, the exit of the process,
and the statements of the registered goroutines.  Then
(1) the callback of every registration is invoked at most once;
(2) a callback that is invoked belongs to a registration whose goroutine has
run to its end, and the process has exited;
(3) when a `Shutdown` call stores the flag while the process has not exited
(the exit follows the store), no callback is ever invoked;
(4) when the process is seen exited at a moment up to which `Shutdown` has not
been called, the callback of every registration whose goroutine has run to its
end has been invoked exactly once, also of a registration made after the exit;
(5) every registration with a callback that is not `nil`, made at any moment,
spawns a new goroutine, which waits for the exit and has not yet invoked the
callback;
(6) once the process has exited, every goroutine that is waiting or woken runs
to its end when it is scheduled. -/
theorem OnUnexpectedShutdown_invoked_on_exit_before_flag_store (s : SqlServer)
    (hs : s.shutdownCalled = 0) (as : List Action) :
    (∀ id, ((System.init s).run as).invocations id ≤ 1) ∧
    (∀ id, ((System.init s).run as).invocations id = 1 →
      ((System.init s).run as).finished id ∧ ((System.init s).run as).srv.exited = true) ∧
    (∀ pre post, as = pre ++ Action.ShutdownStore :: post →
      ((System.init s).run pre).panicked = false →
      ((System.init s).run pre).main = MainPC.tested →
      ((System.init s).run pre).srv.exited = false →
      ∀ id, ((System.init s).run as).invocations id = 0) ∧
    (∀ pre post, as = pre ++ post → Action.ShutdownTest ∉ pre →
      ((System.init s).run pre).srv.exited = true →
      ∀ id, ((System.init s).run as).finished id → ((System.init s).run as).invocations id = 1) ∧
    (∀ pre post, as = pre ++ Action.OnUnexpectedShutdown false :: post →
      ((System.init s).run pre).panicked = false →
      ((System.init s).run pre).main = MainPC.idle →
      ((System.init s).run pre).spawned ∈
        ((System.init s).run (pre ++ [Action.OnUnexpectedShutdown false])).waiting ∧
      ((System.init s).run (pre ++ [Action.OnUnexpectedShutdown false])).spawned =
        ((System.init s).run pre).spawned + 1 ∧
      ((System.init s).run (pre ++ [Action.OnUnexpectedShutdown false])).invocations
        ((System.init s).run pre).spawned = 0 ∧
      ((System.init s).run pre).spawned < ((System.init s).run as).spawned) ∧
    (∀ id, ((System.init s).run as).panicked = false →
      ((System.init s).run as).srv.exited = true →
      id ∈ ((System.init s).run as).waiting ∨ id ∈ ((System.init s).run as).woken →
      (((System.init s).run as).run [Action.wake id, Action.load id]).finished id) := by
  have hinv := run_inv (System.init s) as (init_inv s)
  have hle : ∀ id, ((System.init s).run as).invocations id ≤ 1 :=
    fun id => List.nodup_iff_count_le_one.mp hinv.calls_nodup id
  have hmem : ∀ id, ((System.init s).run as).invocations id = 1 ↔
      id ∈ ((System.init s).run as).calls.map Prod.fst := by
    intro id
    rw [← List.one_le_count_iff]
    have := hle id
    unfold System.invocations at this ⊢
    omega
  refine ⟨hle, ?_, ?_, ?_, ?_, ?_⟩
  · intro id h1
    have hm := (hmem id).mp h1
    refine ⟨hinv.calls_finished id hm, hinv.calls_exited ?_⟩
    intro hnil
    rw [hnil] at hm
    simp at hm
  · intro pre post hsplit hp hm hx id
    have hpre := run_inv (System.init s) pre (init_inv s)
    have hc : ((System.init s).run pre).calls = [] := by
      by_contra hne
      have := hpre.calls_exited hne
      rw [hx] at this
      cases this
    have h1 : ((System.init s).run as).calls = [] := by
      rw [hsplit, run_append, run_cons, step_store _ hp hm, run_flag_one _ post rfl]
      exact hc
    simp [System.invocations, h1]
  · intro pre post hsplit hpre hx id hfin
    have h0 : (System.init s).main = MainPC.idle ∧ (System.init s).srv.shutdownCalled ≠ 1 := by
      refine ⟨rfl, ?_⟩
      show s.shutdownCalled ≠ 1
      omega
    have h1 := run_idle _ pre hpre h0
    have h2 := run_exited_idle _ post ⟨hx, h1.1, h1.2⟩
    rw [← run_append, ← hsplit] at h2
    exact (hmem id).mpr (hinv.finished_called h2.2 id hfin.1 hfin.2.1 hfin.2.2)
  · intro pre post hsplit hp hm
    have hpre := run_inv (System.init s) pre (init_inv s)
    have h1 : (System.init s).run (pre ++ [Action.OnUnexpectedShutdown false]) =
        { (System.init s).run pre with
          waiting := ((System.init s).run pre).waiting ++ [((System.init s).run pre).spawned],
          spawned := ((System.init s).run pre).spawned + 1 } := by
      rw [run_append, run_cons, run_nil, step_register _ hp hm]
    refine ⟨?_, ?_, ?_, ?_⟩
    · rw [h1]
      show ((System.init s).run pre).spawned ∈
        ((System.init s).run pre).waiting ++ [((System.init s).run pre).spawned]
      simp
    · rw [h1]
    · rw [h1]
      show (((System.init s).run pre).calls.map Prod.fst).count ((System.init s).run pre).spawned = 0
      rw [List.count_eq_zero]
      intro hmm
      have := (hpre.calls_finished _ hmm).1
      omega
    · have h2 : as = (pre ++ [Action.OnUnexpectedShutdown false]) ++ post := by
        rw [hsplit]
        simp
      have h3 := run_spawned ((System.init s).run (pre ++ [Action.OnUnexpectedShutdown false])) post
      rw [← run_append, ← h2, h1] at h3
      have h4 : ((System.init s).run pre).spawned + 1 ≤ ((System.init s).run as).spawned := h3
      omega
  · intro id hp hx hw
    exact wake_load_finishes _ id hinv hp hx hw

/-- C4, amended, at the run of `TestOnUnexpectedShutdown` (a callback is
registered, the process is killed, the goroutine runs): the callback is invoked
exactly once; so is a callback registered after the process has exited on its
own; and after a `Shutdown` call that stores the flag on the running process
no callback is invoked. -/
theorem OnUnexpectedShutdown_invoked_on_exit_before_flag_store_witness :
    ((System.init demoServer).run
        [Action.OnUnexpectedShutdown false, Action.processExit, Action.wake 0,
          Action.load 0]).invocations 0 = 1 ∧
    ((System.init demoServer).run
        [Action.processExit, Action.OnUnexpectedShutdown false, Action.wake 0,
          Action.load 0]).invocations 0 = 1 ∧
    ((System.init demoServer).run
        [Action.processExit, Action.OnUnexpectedShutdown false, Action.wake 0,
          Action.load 0]).calls = [(0, "exit status 1")] ∧
    ((System.init demoServer).run
        [Action.OnUnexpectedShutdown false, Action.ShutdownTest, Action.ShutdownStore,
          Action.ShutdownSignal, Action.processExit, Action.ShutdownWait, Action.wake 0,
          Action.load 0]).invocations 0 = 0 := by
  refine ⟨?_, ?_, by decide, ?_⟩
  · exact (OnUnexpectedShutdown_invoked_on_exit_before_flag_store demoServer rfl
      [Action.OnUnexpectedShutdown false, Action.processExit, Action.wake 0, Action.load 0]).2.2.2.1
      [Action.OnUnexpectedShutdown false, Action.processExit] [Action.wake 0, Action.load 0] rfl
      (by decide) (by decide) 0 ⟨by decide, by decide, by decide⟩
  · exact (OnUnexpectedShutdown_invoked_on_exit_before_flag_store demoServer rfl
      [Action.processExit, Action.OnUnexpectedShutdown false, Action.wake 0, Action.load 0]).2.2.2.1
      [Action.processExit] [Action.OnUnexpectedShutdown false, Action.wake 0, Action.load 0] rfl
      (by decide) (by decide) 0 ⟨by decide, by decide, by decide⟩
  · exact (OnUnexpectedShutdown_invoked_on_exit_before_flag_store demoServer rfl
      [Action.OnUnexpectedShutdown false, Action.ShutdownTest, Action.ShutdownStore,
        Action.ShutdownSignal, Action.processExit, Action.ShutdownWait, Action.wake 0,
        Action.load 0]).2.2.1
      [Action.OnUnexpectedShutdown false, Action.ShutdownTest]
      [Action.ShutdownSignal, Action.processExit, Action.ShutdownWait, Action.wake 0,
        Action.load 0] rfl (by decide) (by decide) (by decide) 0

end Sqlbuild
